import Mathlib

/-!
Verification development for the batched relationship loader
(`jessiql/engine/jselectinloader.py`).

Shallow embedding conventions:
* A row dict (`SARowDict`) is an association list from column name to scalar
  value; Python `None` is `Scalar.null`.
* Parent records are mutable dicts shared by reference between the caller's
  list and the partitioner's groups.  We model identity by index: a `Store`
  maps each parent index to its current state, and groups hold indices.
* The relationship field written by the loader (`state_dict[self.key]`) holds
  a child dict, a list, or `None`; those values live outside the scalar
  column space, so a parent state is its scalar `row` plus a separate `rel`
  slot for the single relationship-named field (`none` = not yet set).
* Executing the prepared query (`prepare_query` installs one
  `in_(bindparam("primary_keys"))` predicate) against a database `db` returns
  the rows of `db` whose match-column tuple is one of the bound keys, in
  database order.  The code binds `key[0]` instead of the 1-tuple `key` when
  `query_info.zero_idx` is set; this is a bijective re-encoding of
  single-column keys, so the model keeps key tuples throughout.
* Exceptions are modelled as values: `prepare_states` returns `Except`
  (a missing column raises, which the spec names `IncompleteRecordError`),
  and the generator's `RunOut.errored` flag records that it raised mid-run
  (mutations already performed persist, as they do on Python dicts).
* Generator semantics are modelled as an event trace: one `exec` per executed
  query, one `write` per relationship-field assignment, one `yieldRow` per
  row yielded to the caller, `warn` for `sa.util.warn`.
-/

namespace JessiQL

/-- A scalar column value as found in a row dict; `null` is Python `None`. -/
inductive Scalar where
  | null
  | int (n : Int)
  | str (s : String)
deriving DecidableEq, Repr

/-- A row dict: column name to scalar value. -/
abbrev Row := List (String × Scalar)

/-- `row[col]` lookup (Python dict access); `none` models a `KeyError`. -/
def rowGet (r : Row) (k : String) : Option Scalar :=
  (r.find? (fun p => p.fst = k)).map Prod.snd

/-- `tuple(row[col.key] for col in cols)`: pluck an ordered key tuple from a
row; `none` when some column is absent (Python raises `KeyError`). -/
def pluckTuple (cols : List String) (row : Row) : Option (List Scalar) :=
  cols.mapM (fun c => rowGet row c)

/-- `get_primary_key_tuple(mapper, row)`: the primary-key tuple of a row,
given the mapper's primary-key column names. -/
def get_primary_key_tuple (mapperPk : List String) (row : Row) : Option (List Scalar) :=
  pluckTuple mapperPk row

/-- `get_foreign_key_tuple(row, query_info)`: the foreign-key tuple of a row,
given `query_info.pk_cols`. -/
def get_foreign_key_tuple (row : Row) (qiPkCols : List String) : Option (List Scalar) :=
  pluckTuple qiPkCols row

/-- The value stored into a parent's relationship field: `None`, a single
child dict, or a list (`_load_via_child` stores `[related_obj]` where
`related_obj` may itself be `None`, hence a list of optional rows). -/
inductive FieldVal where
  | vnull
  | vrow (r : Row)
  | vlist (rs : List (Option Row))
deriving DecidableEq, Repr

/-- The state of one parent record: its scalar columns plus the single
relationship-named field the loader may write (`none` = never written). -/
structure PState where
  row : Row
  rel : Option FieldVal
deriving DecidableEq, Repr

/-- Parent records addressed by identity (index). -/
abbrev Store := Nat → PState

/-- `state_dict[self.key] = v`: write the relationship field of parent `i`. -/
def setRel (s : Store) (i : Nat) (v : FieldVal) : Store :=
  fun j => if j = i then { s j with rel := some v } else s j

/-- `JSelectInLoader`'s static configuration for one relationship edge:
`key` is `relation_property.key`; `uselist` the cardinality flag;
`load_only_child` is `query_info.load_only_child` (`true` for MANYTOONE);
`child_lookup_cols` are `query_info.child_lookup_cols` (FK columns on the
parent, MANYTOONE); `source_pk_cols` are `source_mapper.primary_key`
(ONETOMANY/MANYTOMANY); `target_pk_cols` are the target-side primary-key
columns (`target_mapper.primary_key`, which for MANYTOONE coincide with
`query_info.pk_cols` used by the `in_` predicate); `fk_cols` are
`query_info.pk_cols` for the ONETOMANY/MANYTOMANY path, i.e. the FK columns
found on fetched child rows. -/
structure JSelectInLoader where
  key : String
  uselist : Bool
  load_only_child : Bool
  child_lookup_cols : List String
  source_pk_cols : List String
  target_pk_cols : List String
  fk_cols : List String
deriving DecidableEq, Repr

/-- `SelectInLoader._chunksize` (SqlAlchemy v1.4.15). -/
def CHUNKSIZE : Nat := 500

/-- The error raised when a record lacks a required key column during
partitioning (a `KeyError` in the source; the spec's `IncompleteRecordError`). -/
inductive PrepError where
  | incompleteRecord
deriving DecidableEq, Repr

/-- `defaultdict(list)` append (`our_states[related_ident].append(state)` in
`prepare_states`, `data[k]` extension in `_load_via_parent`): append a value
to the group with this key if present, else create the group at the end
(Python dicts preserve insertion order). -/
def addToGroup {α : Type} : List (List Scalar × List α) → List Scalar → α →
    List (List Scalar × List α)
  | [], t, i => [(t, [i])]
  | (k, g) :: rest, t, i =>
      if k = t then (k, g ++ [i]) :: rest else (k, g) :: addToGroup rest t i

/-- Association lookup shared by the model's dict reads. -/
def lookupAssoc {α : Type} (m : List (List Scalar × α)) (k : List Scalar) : Option α :=
  (m.find? (fun p => p.fst = k)).map Prod.snd

/-- Loop of `prepare_states` for the MANYTOONE (`load_only_child`) case:
pluck each parent's foreign-key tuple; tuples with a `None` component go to
`none_states`, the rest are grouped by tuple. -/
def prepChildGo (cols : List String) (store : Store) :
    List Nat → List (List Scalar × List Nat) → List Nat →
    Except PrepError (List (List Scalar × List Nat) × List Nat)
  | [], acc, accN => .ok (acc, accN)
  | j :: rest, acc, accN =>
      match pluckTuple cols (store j).row with
      | none => .error .incompleteRecord
      | some t =>
          if Scalar.null ∈ t then prepChildGo cols store rest acc (accN ++ [j])
          else prepChildGo cols store rest (addToGroup acc t j) accN

/-- The partitioned parent set produced by `prepare_states`: either the
MANYTOONE grouping (`our_states` dict plus `none_states`) or the
ONETOMANY/MANYTOMANY pairing of each parent with its own primary-key tuple. -/
inductive Prepared where
  | childStates (our_states : List (List Scalar × List Nat)) (none_states : List Nat)
  | parentStates (our_states : List (List Scalar × Nat))
deriving DecidableEq, Repr

/-- `JSelectInLoader.prepare_states`. -/
def prepare_states (L : JSelectInLoader) (states : List Nat) (store : Store) :
    Except PrepError Prepared :=
  if L.load_only_child then
    (prepChildGo L.child_lookup_cols store states [] []).map
      (fun p => .childStates p.fst p.snd)
  else
    (states.mapM (fun j =>
        match get_primary_key_tuple L.source_pk_cols (store j).row with
        | some t => Except.ok (t, j)
        | none => Except.error PrepError.incompleteRecord)).map
      (fun l => .parentStates l)

/-! ### Key ordering

`_load_via_child` runs `sorted(our_states)` over the grouped foreign-key
tuples ("this sort is really for the benefit of the unit tests").  Python
compares tuples lexicographically, elementwise; we totalise the elementwise
order across scalar constructors (Python would raise on mixed types, which
never occurs for tuples drawn from one column list). -/

/-- Elementwise order on scalars: `null`, then ints by value, then strings. -/
def Scalar.leB : Scalar → Scalar → Bool
  | .null, _ => true
  | .int _, .null => false
  | .int m, .int n => m ≤ n
  | .int _, .str _ => true
  | .str _, .null => false
  | .str _, .int _ => false
  | .str s, .str t => s ≤ t

/-- Python tuple comparison: lexicographic, a strict prefix sorts first. -/
def keyLe : List Scalar → List Scalar → Bool
  | [], _ => true
  | _ :: _, [] => false
  | a :: as, b :: bs => if a = b then keyLe as bs else Scalar.leB a b

/-- `keyLe` as a relation, for `List.insertionSort` and sortedness claims. -/
def keyLeP : List Scalar → List Scalar → Prop := fun a b => keyLe a b = true

instance : DecidableRel keyLeP := fun a b => inferInstanceAs (Decidable (keyLe a b = true))

/-! ### Query execution -/

/-- Executing the prepared query (`prepare_query`'s single
`in_expr.in_(bindparam("primary_keys"))` predicate) against database `db`
with `keys` bound: the rows of `db` whose match-column tuple is one of the
bound keys, in database order. -/
def runQuery (db : List Row) (matchCols : List String) (keys : List (List Scalar)) : List Row :=
  db.filter (fun row =>
    match pluckTuple matchCols row with
    | some t => decide (t ∈ keys)
    | none => false)

/-- One observable step of `fetch_results_and_populate_states`: a query
execution with its bound key list, a relationship-field write on a parent, a
row yielded to the caller, or a `sa.util.warn` call. -/
inductive Event where
  | exec (boundKeys : List (List Scalar))
  | write (i : Nat)
  | yieldRow (r : Row)
  | warn
deriving DecidableEq, Repr

/-- Outcome of (a suffix of) one generator run: the final parent states, the
event trace, and whether the generator raised mid-run (mutations already
performed persist). -/
structure RunOut where
  store : Store
  events : List Event
  errored : Bool

/-! ### `_load_via_parent` (ONETOMANY / MANYTOMANY) -/

/-- The `data` defaultdict of `_load_via_parent`: fetched rows grouped by
`get_foreign_key_tuple`.  The source groups consecutive runs with
`itertools.groupby` and `extend`s; appending the rows one at a time builds
exactly the same mapping.  Rows lacking a foreign-key column are skipped
(unreachable: fetched rows always carry the matched columns). -/
def buildData (fkCols : List String) (rows : List Row) : List (List Scalar × List Row) :=
  rows.foldl (fun acc r =>
    match get_foreign_key_tuple r fkCols with
    | some t => addToGroup acc t r
    | none => acc) []

/-- `data.get(key)` (`none` plays the `_empty_result()` default). -/
def lookupData (data : List (List Scalar × List Row)) (k : List Scalar) :
    Option (List Row) :=
  lookupAssoc data k

/-- The population loop of `_load_via_parent` over one chunk:
`collection = data.get(key, _empty_result())`; a singular relationship takes
`collection[0]` (warning when several rows matched), a plural one the whole
collection; then `yield from collection`.  When the relationship is singular
and nothing matched, `collection` is `None`: the field is set to `None` and
`yield from None` raises `TypeError`, aborting the generator. -/
def processStates (L : JSelectInLoader) (data : List (List Scalar × List Row)) :
    List (List Scalar × Nat) → Store → RunOut
  | [], s => ⟨s, [], false⟩
  | (k, i) :: rest, s =>
      match lookupData data k with
      | none =>
          if L.uselist then
            -- collection = [] : populate with the empty list, yield nothing
            let next := processStates L data rest (setRel s i (.vlist []))
            ⟨next.store, .write i :: next.events, next.errored⟩
          else
            -- collection = None : populate with None, then `yield from None`
            ⟨setRel s i .vnull, [.write i], true⟩
      | some coll =>
          if L.uselist then
            let next := processStates L data rest (setRel s i (.vlist (coll.map some)))
            ⟨next.store, .write i :: (coll.map Event.yieldRow ++ next.events), next.errored⟩
          else
            match coll with
            | [] =>
                -- unreachable (groups are never empty): `[]` is falsy, stored as is
                let next := processStates L data rest (setRel s i (.vlist []))
                ⟨next.store, .write i :: next.events, next.errored⟩
            | r :: tail =>
                let warns : List Event := if tail.isEmpty then [] else [.warn]
                let next := processStates L data rest (setRel s i (.vrow r))
                ⟨next.store,
                 warns ++ .write i :: ((r :: tail).map Event.yieldRow ++ next.events),
                 next.errored⟩

/-- `_load_via_parent`: slice `our_states` into chunks of `B` from the front,
execute the query once per chunk with the chunk's key tuples bound, group the
fetched rows by foreign-key tuple, and populate/yield per parent.  For
`B = 0` the model behaves as `B = 1` (the source constant is 500). -/
def load_via_parent_go (L : JSelectInLoader) (B : Nat) (db : List Row) :
    List (List Scalar × Nat) → Store → RunOut
  | [], s => ⟨s, [], false⟩
  | x :: rest, s =>
      let chunk := x :: rest.take (B - 1)
      let remaining := rest.drop (B - 1)
      let primary_keys := chunk.map Prod.fst
      let fetched := runQuery db L.fk_cols primary_keys
      let data := buildData L.fk_cols fetched
      let out := processStates L data chunk s
      if out.errored then ⟨out.store, .exec primary_keys :: out.events, true⟩
      else
        let tail := load_via_parent_go L B db remaining out.store
        ⟨tail.store, .exec primary_keys :: (out.events ++ tail.events), tail.errored⟩
termination_by l => l.length
decreasing_by simp [List.length_drop]; omega

/-- `JSelectInLoader._load_via_parent`. -/
def load_via_parent (L : JSelectInLoader) (B : Nat) (db : List Row)
    (our_states : List (List Scalar × Nat)) (s : Store) : RunOut :=
  load_via_parent_go L B db our_states s

/-! ### `_load_via_child` (MANYTOONE) -/

/-- Python dict assignment for the `data` comprehension: overwrite in place
when the key exists (keeping its position), else append. -/
def dictSet : List (List Scalar × Row) → List Scalar → Row → List (List Scalar × Row)
  | [], t, r => [(t, r)]
  | (k, v) :: rest, t, r =>
      if k = t then (t, r) :: rest else (k, v) :: dictSet rest t r

/-- The `data` dict of `_load_via_child`:
`{get_primary_key_tuple(target_mapper, row): dict(row) for row in execute(...)}`
(later rows with the same primary key overwrite earlier ones).  Rows lacking
a primary-key column are skipped (unreachable for fetched target rows). -/
def buildMap (pkCols : List String) (rows : List Row) : List (List Scalar × Row) :=
  rows.foldl (fun acc r =>
    match get_primary_key_tuple pkCols r with
    | some t => dictSet acc t r
    | none => acc) []

/-- `data.get(key, None)`. -/
def lookupMap (m : List (List Scalar × Row)) (k : List Scalar) : Option Row :=
  lookupAssoc m k

/-- `our_states[key]` (defaultdict: a missing key reads as the empty group). -/
def lookupGroupD (gs : List (List Scalar × List Nat)) (k : List Scalar) : List Nat :=
  (lookupAssoc gs k).getD []

/-- `related_obj if not uselist else [related_obj]`. -/
def relatedToField (uselist : Bool) (ro : Option Row) : FieldVal :=
  if uselist then .vlist [ro]
  else
    match ro with
    | some r => .vrow r
    | none => .vnull

/-- The relationship-field writes performed by one chunk of
`_load_via_child`: `for key in chunk: for state_dict in our_states[key]:
state_dict[self.key] = ...`, flattened in loop order. -/
def groupWrites (L : JSelectInLoader) (our_states : List (List Scalar × List Nat))
    (data : List (List Scalar × Row)) (chunk : List (List Scalar)) :
    List (Nat × FieldVal) :=
  chunk.flatMap (fun k =>
    (lookupGroupD our_states k).map (fun i => (i, relatedToField L.uselist (lookupMap data k))))

/-- Apply a sequence of relationship-field writes in order. -/
def applyWrites (ws : List (Nat × FieldVal)) (s : Store) : Store :=
  ws.foldl (fun s w => setRel s w.fst w.snd) s

/-- Chunk loop of `_load_via_child`: per chunk, execute the query with the
chunk's keys bound, key the fetched rows by target primary key, write every
parent of every key's group, then (inside the loop, as in the source) write
`None` to every `none_states` parent, then `yield from data.values()`. -/
def load_via_child_go (L : JSelectInLoader) (B : Nat) (db : List Row)
    (our_states : List (List Scalar × List Nat)) (none_states : List Nat) :
    List (List Scalar) → Store → RunOut
  | [], s => ⟨s, [], false⟩
  | k0 :: krest, s =>
      let chunk := k0 :: krest.take (B - 1)
      let remaining := krest.drop (B - 1)
      let fetched := runQuery db L.target_pk_cols chunk
      let data := buildMap L.target_pk_cols fetched
      let ws := groupWrites L our_states data chunk
      let s1 := applyWrites ws s
      -- populate none states with empty value / collection
      let nws := none_states.map (fun i => (i, FieldVal.vnull))
      let s2 := applyWrites nws s1
      let yields := (data.map Prod.snd).map Event.yieldRow
      let tail := load_via_child_go L B db our_states none_states remaining s2
      ⟨tail.store,
       .exec chunk :: (ws.map (fun w => Event.write w.fst)
         ++ nws.map (fun w => Event.write w.fst) ++ yields ++ tail.events),
       tail.errored⟩
termination_by l => l.length
decreasing_by simp [List.length_drop]; omega

/-- `JSelectInLoader._load_via_child`: sort the grouped keys, then drain them
in chunks. -/
def load_via_child (L : JSelectInLoader) (B : Nat) (db : List Row)
    (our_states : List (List Scalar × List Nat)) (none_states : List Nat)
    (s : Store) : RunOut :=
  load_via_child_go L B db our_states none_states
    (List.insertionSort keyLeP (our_states.map Prod.fst)) s

/-! ### Dispatcher -/

/-- `JSelectInLoader.fetch_results_and_populate_states`. -/
def fetch_results_and_populate_states (L : JSelectInLoader) (B : Nat) (db : List Row)
    (prep : Prepared) (s : Store) : RunOut :=
  match prep with
  | .childStates our none_grp => load_via_child L B db our none_grp s
  | .parentStates our => load_via_parent L B db our s

/-- One whole load call: `prepare_states` then
`fetch_results_and_populate_states`. -/
def runLoad (L : JSelectInLoader) (B : Nat) (db : List Row) (states : List Nat)
    (store : Store) : Except PrepError RunOut :=
  (prepare_states L states store).map
    (fun p => fetch_results_and_populate_states L B db p store)

/-- Project the outcome of a load call (a load that failed during
partitioning contributes a sentinel with `errored = true`). -/
def loadOutcome (r : Except PrepError RunOut) : RunOut :=
  match r with
  | .ok o => o
  | .error _ => ⟨fun _ => ⟨[], none⟩, [], true⟩

/-- Number of executed queries in a trace. -/
def execCount (evs : List Event) : Nat :=
  (evs.filter (fun e => match e with | .exec _ => true | _ => false)).length

/-- All bound key lists of a trace, concatenated. -/
def execKeysJoin (evs : List Event) : List (List Scalar) :=
  evs.flatMap (fun e => match e with | .exec ks => ks | _ => [])

/-- `ceil(n / b)` on naturals. -/
def ceilDiv (n b : Nat) : Nat := (n + b - 1) / b

/-- Batch-population-before-yield scanner: `false` when some write occurs
after a yield within the same batch (batches are delimited by `exec`). -/
def bpbyGo : Bool → List Event → Bool
  | _, [] => true
  | _, .exec _ :: rest => bpbyGo false rest
  | seenYield, .write _ :: rest => if seenYield then false else bpbyGo seenYield rest
  | _, .yieldRow _ :: rest => bpbyGo true rest
  | seenYield, .warn :: rest => bpbyGo seenYield rest

/-- Whether a trace never yields a batch's row before that batch's
population is complete. -/
def batchPopulateBeforeYield (evs : List Event) : Bool := bpbyGo false evs

/-! ## Equation lemmas for the chunk loops -/

theorem load_via_child_go_nil (L : JSelectInLoader) (B : Nat) (db : List Row)
    (gs : List (List Scalar × List Nat)) (ns : List Nat) (s : Store) :
    load_via_child_go L B db gs ns [] s = ⟨s, [], false⟩ := by
  rw [load_via_child_go.eq_def]

theorem load_via_child_go_cons (L : JSelectInLoader) (B : Nat) (db : List Row)
    (gs : List (List Scalar × List Nat)) (ns : List Nat) (k0 : List Scalar)
    (krest : List (List Scalar)) (s : Store) :
    load_via_child_go L B db gs ns (k0 :: krest) s =
      (let chunk := k0 :: krest.take (B - 1)
       let remaining := krest.drop (B - 1)
       let data := buildMap L.target_pk_cols (runQuery db L.target_pk_cols chunk)
       let ws := groupWrites L gs data chunk
       let nws := ns.map (fun i => (i, FieldVal.vnull))
       let tail := load_via_child_go L B db gs ns remaining
         (applyWrites nws (applyWrites ws s))
       ⟨tail.store,
        .exec chunk :: (ws.map (fun w => Event.write w.fst)
          ++ nws.map (fun w => Event.write w.fst)
          ++ (data.map Prod.snd).map Event.yieldRow ++ tail.events),
        tail.errored⟩) := by
  rw [load_via_child_go.eq_def]

theorem load_via_parent_go_nil (L : JSelectInLoader) (B : Nat) (db : List Row)
    (s : Store) : load_via_parent_go L B db [] s = ⟨s, [], false⟩ := by
  rw [load_via_parent_go.eq_def]

theorem load_via_parent_go_cons (L : JSelectInLoader) (B : Nat) (db : List Row)
    (x : List Scalar × Nat) (rest : List (List Scalar × Nat)) (s : Store) :
    load_via_parent_go L B db (x :: rest) s =
      (let chunk := x :: rest.take (B - 1)
       let remaining := rest.drop (B - 1)
       let primary_keys := chunk.map Prod.fst
       let data := buildData L.fk_cols (runQuery db L.fk_cols primary_keys)
       let out := processStates L data chunk s
       if out.errored then ⟨out.store, .exec primary_keys :: out.events, true⟩
       else
         let tail := load_via_parent_go L B db remaining out.store
         ⟨tail.store, .exec primary_keys :: (out.events ++ tail.events),
          tail.errored⟩) := by
  rw [load_via_parent_go.eq_def]

/-! ## The key order is total and transitive -/

theorem Scalar.leB_total (a b : Scalar) : Scalar.leB a b = true ∨ Scalar.leB b a = true := by
  cases a <;> cases b <;> simp [Scalar.leB] <;> first
    | exact Int.le_total ..
    | exact le_total ..

theorem Scalar.leB_trans {a b c : Scalar} (h1 : Scalar.leB a b = true)
    (h2 : Scalar.leB b c = true) : Scalar.leB a c = true := by
  cases a <;> cases b <;> cases c <;> simp_all [Scalar.leB] <;> exact le_trans h1 h2

theorem Scalar.leB_antisymm {a b : Scalar} (h1 : Scalar.leB a b = true)
    (h2 : Scalar.leB b a = true) : a = b := by
  cases a <;> cases b <;> simp_all [Scalar.leB] <;> first
    | exact le_antisymm h1 h2
    | exact String.ext (le_antisymm h1 h2)

theorem keyLe_total (a b : List Scalar) : keyLe a b = true ∨ keyLe b a = true := by
  induction a generalizing b with
  | nil => left; simp [keyLe]
  | cons x xs ih =>
      cases b with
      | nil => right; simp [keyLe]
      | cons y ys =>
          by_cases hxy : x = y
          · subst hxy
            simpa [keyLe] using ih ys
          · have hyx : ¬ y = x := fun h => hxy h.symm
            simpa [keyLe, hxy, hyx] using Scalar.leB_total x y

theorem keyLe_trans {a b c : List Scalar} (h1 : keyLe a b = true)
    (h2 : keyLe b c = true) : keyLe a c = true := by
  induction a generalizing b c with
  | nil => simp [keyLe]
  | cons x xs ih =>
      cases b with
      | nil => simp [keyLe] at h1
      | cons y ys =>
          cases c with
          | nil => simp [keyLe] at h2
          | cons z zs =>
              by_cases hxy : x = y <;> by_cases hyz : y = z
              · subst hxy; subst hyz
                simp only [keyLe, if_pos rfl] at h1 h2 ⊢
                exact ih h1 h2
              · subst hxy
                simp only [keyLe, if_pos rfl, if_neg hyz] at h2 ⊢
                exact h2
              · subst hyz
                simp only [keyLe, if_pos rfl, if_neg hxy] at h1 ⊢
                exact h1
              · simp only [keyLe, if_neg hxy, if_neg hyz] at h1 h2
                by_cases hxz : x = z
                · subst hxz
                  exact absurd (Scalar.leB_antisymm h1 h2) hxy
                · simp only [keyLe, if_neg hxz]
                  exact Scalar.leB_trans h1 h2

instance : IsTotal (List Scalar) keyLeP := ⟨keyLe_total⟩

instance : IsTrans (List Scalar) keyLeP := ⟨fun _ _ _ => keyLe_trans⟩

/-- The key sequence drained by `_load_via_child` is sorted. -/
theorem sorted_sortedKeys (ks : List (List Scalar)) :
    List.Sorted keyLeP (List.insertionSort keyLeP ks) :=
  List.sorted_insertionSort keyLeP ks

/-! ## Store-write lemmas -/

theorem setRel_row (s : Store) (i : Nat) (v : FieldVal) (j : Nat) :
    ((setRel s i v) j).row = (s j).row := by
  simp only [setRel]; split <;> rfl

theorem setRel_rel_ne (s : Store) (i : Nat) (v : FieldVal) {j : Nat} (h : j ≠ i) :
    ((setRel s i v) j).rel = (s j).rel := by
  simp [setRel, h]

theorem setRel_rel_self (s : Store) (i : Nat) (v : FieldVal) :
    ((setRel s i v) i).rel = some v := by
  simp [setRel]

theorem applyWrites_nil (s : Store) : applyWrites [] s = s := rfl

theorem applyWrites_cons (w : Nat × FieldVal) (ws : List (Nat × FieldVal)) (s : Store) :
    applyWrites (w :: ws) s = applyWrites ws (setRel s w.fst w.snd) := rfl

theorem applyWrites_append (ws1 ws2 : List (Nat × FieldVal)) (s : Store) :
    applyWrites (ws1 ++ ws2) s = applyWrites ws2 (applyWrites ws1 s) := by
  simp [applyWrites, List.foldl_append]

theorem applyWrites_row (ws : List (Nat × FieldVal)) (s : Store) (j : Nat) :
    ((applyWrites ws s) j).row = (s j).row := by
  induction ws generalizing s with
  | nil => rfl
  | cons w ws ih => rw [applyWrites_cons, ih, setRel_row]

/-- The last write targeting index `j`, if any. -/
def lastWrite (ws : List (Nat × FieldVal)) (j : Nat) : Option (Nat × FieldVal) :=
  ws.reverse.find? (fun w => w.fst = j)

theorem lastWrite_nil (j : Nat) : lastWrite [] j = none := rfl

theorem lastWrite_cons (w : Nat × FieldVal) (ws : List (Nat × FieldVal)) (j : Nat) :
    lastWrite (w :: ws) j =
      match lastWrite ws j with
      | some u => some u
      | none => if w.fst = j then some w else none := by
  simp only [lastWrite, List.reverse_cons, List.find?_append]
  rcases h : List.find? (fun w => w.fst = j) ws.reverse with _ | u
  · by_cases hw : w.fst = j <;> simp [h, Option.or, List.find?, hw]
  · simp [h, Option.or]

/-- Dict-write semantics on a store: the last write to an index wins, and an
index never written keeps its field. -/
theorem applyWrites_rel (ws : List (Nat × FieldVal)) (s : Store) (j : Nat) :
    ((applyWrites ws s) j).rel =
      match lastWrite ws j with
      | some u => some u.snd
      | none => (s j).rel := by
  induction ws generalizing s with
  | nil => rfl
  | cons w ws ih =>
      rw [applyWrites_cons, ih, lastWrite_cons]
      rcases h : lastWrite ws j with _ | u
      · by_cases hw : w.fst = j
        · subst hw; simp [setRel_rel_self]
        · have hj : j ≠ w.fst := fun hh => hw hh.symm
          simp [hw, setRel_rel_ne _ _ _ hj]
      · rfl

theorem lastWrite_eq_none_iff (ws : List (Nat × FieldVal)) (j : Nat) :
    lastWrite ws j = none ↔ ∀ w ∈ ws, w.fst ≠ j := by
  simp [lastWrite, List.find?_eq_none]

theorem lastWrite_mem {ws : List (Nat × FieldVal)} {j : Nat} {u : Nat × FieldVal}
    (h : lastWrite ws j = u) : u ∈ ws ∧ u.fst = j := by
  refine ⟨?_, ?_⟩
  · have := List.mem_of_find?_eq_some h
    simpa using this
  · simpa using List.find?_some h

/-! ## Characterisation of the MANYTOONE partitioner -/

theorem lookupAssoc_nil {α : Type} (u : List Scalar) : lookupAssoc ([] : List (List Scalar × α)) u = none := rfl

theorem lookupAssoc_cons_self {α : Type} (k : List Scalar) (g : α)
    (rest : List (List Scalar × α)) : lookupAssoc ((k, g) :: rest) k = some g := by
  simp [lookupAssoc, List.find?]

theorem lookupAssoc_cons_ne {α : Type} {u k : List Scalar} (g : α)
    (rest : List (List Scalar × α)) (h : u ≠ k) :
    lookupAssoc ((k, g) :: rest) u = lookupAssoc rest u := by
  simp [lookupAssoc, List.find?, Ne.symm h]

theorem lookupGroupD_nil (u : List Scalar) : lookupGroupD [] u = [] := rfl

theorem lookupGroupD_cons_self (k : List Scalar) (g : List Nat)
    (rest : List (List Scalar × List Nat)) :
    lookupGroupD ((k, g) :: rest) k = g := by
  simp [lookupGroupD, lookupAssoc_cons_self]

theorem lookupGroupD_cons_ne {u k : List Scalar} (g : List Nat)
    (rest : List (List Scalar × List Nat)) (h : u ≠ k) :
    lookupGroupD ((k, g) :: rest) u = lookupGroupD rest u := by
  simp [lookupGroupD, lookupAssoc_cons_ne _ _ h]

theorem addToGroup_lookup_self (acc : List (List Scalar × List Nat))
    (t : List Scalar) (i : Nat) :
    lookupGroupD (addToGroup acc t i) t = lookupGroupD acc t ++ [i] := by
  induction acc with
  | nil => simp [addToGroup, lookupGroupD_cons_self, lookupGroupD_nil]
  | cons p rest ih =>
      obtain ⟨k, g⟩ := p
      by_cases hk : k = t
      · subst hk
        simp [addToGroup, lookupGroupD_cons_self]
      · simp only [addToGroup, if_neg hk,
          lookupGroupD_cons_ne _ _ (fun hh => hk hh.symm)]
        exact ih

theorem addToGroup_lookup_ne (acc : List (List Scalar × List Nat))
    (t : List Scalar) (i : Nat) {u : List Scalar} (h : u ≠ t) :
    lookupGroupD (addToGroup acc t i) u = lookupGroupD acc u := by
  induction acc with
  | nil => simp [addToGroup, lookupGroupD_cons_ne _ _ h]
  | cons p rest ih =>
      obtain ⟨k, g⟩ := p
      by_cases hk : k = t
      · subst hk
        simp [addToGroup, lookupGroupD_cons_ne _ _ h]
      · simp only [addToGroup, if_neg hk]
        by_cases hku : u = k
        · subst hku
          simp [lookupGroupD_cons_self]
        · simp only [lookupGroupD_cons_ne _ _ hku]
          exact ih

theorem addToGroup_keys (acc : List (List Scalar × List Nat)) (t : List Scalar) (i : Nat) :
    (addToGroup acc t i).map Prod.fst =
      if t ∈ acc.map Prod.fst then acc.map Prod.fst else acc.map Prod.fst ++ [t] := by
  induction acc with
  | nil => simp [addToGroup]
  | cons p rest ih =>
      obtain ⟨k, g⟩ := p
      by_cases hk : k = t
      · subst hk
        simp [addToGroup]
      · have hk2 : ¬ t = k := fun hh => hk hh.symm
        simp only [addToGroup, if_neg hk, List.map_cons, ih]
        by_cases hmem : t ∈ rest.map Prod.fst
        · simp [hmem, hk2]
        · simp [hmem, hk2]

theorem addToGroup_nonempty {acc : List (List Scalar × List Nat)}
    (hne : ∀ p ∈ acc, p.snd ≠ []) (t : List Scalar) (i : Nat) :
    ∀ p ∈ addToGroup acc t i, p.snd ≠ [] := by
  induction acc with
  | nil =>
      intro p hp
      simp only [addToGroup, List.mem_singleton] at hp
      subst hp; simp
  | cons q rest ih =>
      obtain ⟨k, g⟩ := q
      intro p hp
      by_cases hk : k = t
      · simp only [addToGroup, if_pos hk, List.mem_cons] at hp
        rcases hp with hp | hp
        · subst hp; simp
        · exact hne p (List.mem_cons_of_mem _ hp)
      · simp only [addToGroup, if_neg hk, List.mem_cons] at hp
        rcases hp with hp | hp
        · subst hp; exact hne _ (List.mem_cons_self _ _)
        · exact ih (fun q hq => hne q (List.mem_cons_of_mem _ hq)) p hp

/-- Predicate: the parent's foreign-key tuple exists and contains `None`. -/
def nullFk (cols : List String) (store : Store) (j : Nat) : Bool :=
  match pluckTuple cols (store j).row with
  | some t => Scalar.null ∈ t
  | none => false

theorem prepChildGo_lookup (cols : List String) (store : Store) (t : List Scalar)
    (ht : Scalar.null ∉ t) (states : List Nat) :
    ∀ (acc : List (List Scalar × List Nat)) (accN : List Nat)
      (gs : List (List Scalar × List Nat)) (ns : List Nat),
      prepChildGo cols store states acc accN = .ok (gs, ns) →
      lookupGroupD gs t = lookupGroupD acc t
        ++ states.filter (fun j => pluckTuple cols (store j).row = some t) := by
  induction states with
  | nil =>
      intro acc accN gs ns h
      simp only [prepChildGo, Except.ok.injEq, Prod.mk.injEq] at h
      obtain ⟨h1, _⟩ := h
      subst h1; simp
  | cons j rest ih =>
      intro acc accN gs ns h
      simp only [prepChildGo] at h
      split at h
      · cases h
      next x tj heq =>
        split at h
        next hn =>
          have hne : ¬ (pluckTuple cols (store j).row = some t) := by
            rw [heq]
            intro hc
            exact ht (by cases hc; exact hn)
          rw [ih _ _ _ _ h]
          simp [List.filter_cons, hne]
        next hn =>
          rw [ih _ _ _ _ h]
          by_cases hjt : tj = t
          · subst hjt
            rw [addToGroup_lookup_self]
            simp [List.filter_cons, heq]
          · have hne : ¬ (pluckTuple cols (store j).row = some t) := by
              rw [heq]; intro hc; exact hjt (by cases hc; rfl)
            rw [addToGroup_lookup_ne _ _ _ (fun hh => hjt hh.symm)]
            simp [List.filter_cons, hne]

theorem prepChildGo_none_states (cols : List String) (store : Store)
    (states : List Nat) :
    ∀ (acc : List (List Scalar × List Nat)) (accN : List Nat)
      (gs : List (List Scalar × List Nat)) (ns : List Nat),
      prepChildGo cols store states acc accN = .ok (gs, ns) →
      ns = accN ++ states.filter (nullFk cols store) := by
  induction states with
  | nil =>
      intro acc accN gs ns h
      simp only [prepChildGo, Except.ok.injEq, Prod.mk.injEq] at h
      obtain ⟨_, h2⟩ := h
      subst h2; simp
  | cons j rest ih =>
      intro acc accN gs ns h
      simp only [prepChildGo] at h
      split at h
      · cases h
      next x tj heq =>
        split at h
        next hn =>
          rw [ih _ _ _ _ h]
          simp [List.filter_cons, nullFk, heq, hn]
        next hn =>
          rw [ih _ _ _ _ h]
          simp [List.filter_cons, nullFk, heq, hn]

theorem prepChildGo_keys_nodup (cols : List String) (store : Store)
    (states : List Nat) :
    ∀ (acc : List (List Scalar × List Nat)) (accN : List Nat)
      (gs : List (List Scalar × List Nat)) (ns : List Nat),
      (acc.map Prod.fst).Nodup →
      prepChildGo cols store states acc accN = .ok (gs, ns) →
      (gs.map Prod.fst).Nodup := by
  induction states with
  | nil =>
      intro acc accN gs ns hnd h
      simp only [prepChildGo, Except.ok.injEq, Prod.mk.injEq] at h
      obtain ⟨h1, _⟩ := h
      subst h1; exact hnd
  | cons j rest ih =>
      intro acc accN gs ns hnd h
      simp only [prepChildGo] at h
      split at h
      · cases h
      next x tj heq =>
        split at h
        next hn => exact ih _ _ _ _ hnd h
        next hn =>
          refine ih _ _ _ _ ?_ h
          rw [addToGroup_keys]
          by_cases hmem : tj ∈ acc.map Prod.fst
          · simpa [hmem] using hnd
          · rw [if_neg hmem]
            refine List.Nodup.append hnd (by simp) ?_
            intro a ha hb
            simp only [List.mem_singleton] at hb
            subst hb
            exact hmem ha

theorem prepChildGo_groups_nonempty (cols : List String) (store : Store)
    (states : List Nat) :
    ∀ (acc : List (List Scalar × List Nat)) (accN : List Nat)
      (gs : List (List Scalar × List Nat)) (ns : List Nat),
      (∀ p ∈ acc, p.snd ≠ []) →
      prepChildGo cols store states acc accN = .ok (gs, ns) →
      ∀ p ∈ gs, p.snd ≠ [] := by
  induction states with
  | nil =>
      intro acc accN gs ns hne h
      simp only [prepChildGo, Except.ok.injEq, Prod.mk.injEq] at h
      obtain ⟨h1, _⟩ := h
      subst h1; exact hne
  | cons j rest ih =>
      intro acc accN gs ns hne h
      simp only [prepChildGo] at h
      split at h
      · cases h
      next x tj heq =>
        split at h
        next hn => exact ih _ _ _ _ hne h
        next hn => exact ih _ _ _ _ (addToGroup_nonempty hne tj j) h

/-! ## Lookup bridges: per-chunk dictionaries versus the whole database -/

theorem addToGroup_assoc_self {α : Type} (m : List (List Scalar × List α))
    (t : List Scalar) (i : α) :
    lookupAssoc (addToGroup m t i) t = some ((lookupAssoc m t).getD [] ++ [i]) := by
  induction m with
  | nil => simp [addToGroup, lookupAssoc_cons_self, lookupAssoc_nil]
  | cons p rest ih =>
      obtain ⟨k, g⟩ := p
      by_cases hk : k = t
      · subst hk
        simp [addToGroup, lookupAssoc_cons_self]
      · simp only [addToGroup, if_neg hk,
          lookupAssoc_cons_ne _ _ (fun hh => hk hh.symm)]
        exact ih

theorem addToGroup_assoc_ne {α : Type} (m : List (List Scalar × List α))
    (t : List Scalar) (i : α) {u : List Scalar} (h : u ≠ t) :
    lookupAssoc (addToGroup m t i) u = lookupAssoc m u := by
  induction m with
  | nil => simp [addToGroup, lookupAssoc_cons_ne _ _ h, lookupAssoc_nil]
  | cons p rest ih =>
      obtain ⟨k, g⟩ := p
      by_cases hk : k = t
      · subst hk
        simp [addToGroup, lookupAssoc_cons_ne _ _ h]
      · simp only [addToGroup, if_neg hk]
        by_cases hku : u = k
        · subst hku
          simp [lookupAssoc_cons_self]
        · simp only [lookupAssoc_cons_ne _ _ hku]
          exact ih

/-- All rows of `db` matching one foreign-key tuple, in database order: the
collection `_load_via_parent` attaches for that key, independent of chunking. -/
def collFor (fkCols : List String) (db : List Row) (t : List Scalar) : List Row :=
  db.filter (fun r => pluckTuple fkCols r = some t)

theorem buildData_go_lookup (fk : List String) (t : List Scalar) (rows : List Row) :
    ∀ acc : List (List Scalar × List Row),
    lookupAssoc (rows.foldl (fun acc r =>
        match get_foreign_key_tuple r fk with
        | some u => addToGroup acc u r
        | none => acc) acc) t =
      match lookupAssoc acc t with
      | some g => some (g ++ collFor fk rows t)
      | none => if (collFor fk rows t).isEmpty then none else some (collFor fk rows t) := by
  induction rows with
  | nil =>
      intro acc
      rcases h : lookupAssoc acc t with _ | g <;> simp [collFor, h]
  | cons r rows ih =>
      intro acc
      simp only [List.foldl_cons]
      cases hpl : get_foreign_key_tuple r fk with
      | none =>
          have hpr : ¬ (pluckTuple fk r = some t) := by
            intro hc
            rw [get_foreign_key_tuple, hc] at hpl
            cases hpl
          dsimp only
          rw [ih acc]
          rcases h : lookupAssoc acc t with _ | g <;>
            simp [h, collFor, List.filter_cons, hpr]
      | some tr =>
          dsimp only
          rw [ih (addToGroup acc tr r)]
          by_cases htr : tr = t
          · subst htr
            have hpr : pluckTuple fk r = some tr := by
              simpa [get_foreign_key_tuple] using hpl
            rw [addToGroup_assoc_self]
            rcases h : lookupAssoc acc tr with _ | g <;>
              simp [h, collFor, List.filter_cons, hpr]
          · have hpr : ¬ (pluckTuple fk r = some t) := by
              intro hc
              rw [get_foreign_key_tuple, hc] at hpl
              cases hpl
              exact htr rfl
            rw [addToGroup_assoc_ne acc tr r (fun hh => htr hh.symm)]
            rcases h : lookupAssoc acc t with _ | g <;>
              simp [h, collFor, List.filter_cons, hpr]

/-- `data.get(key)` over one whole `buildData` run is the ordered filter of
the grouped rows (a present key always maps to its non-empty collection). -/
theorem buildData_lookup (fk : List String) (rows : List Row) (t : List Scalar) :
    lookupData (buildData fk rows) t =
      if (collFor fk rows t).isEmpty then none else some (collFor fk rows t) := by
  have := buildData_go_lookup fk t rows []
  simpa [buildData, lookupData, lookupAssoc_nil] using this

theorem find?_filter_of_imp {α : Type} (l : List α) (p q : α → Bool)
    (h : ∀ a, p a = true → q a = true) : (l.filter q).find? p = l.find? p := by
  induction l with
  | nil => rfl
  | cons a l ih =>
      by_cases hq : q a = true
      · rw [List.filter_cons_of_pos hq]
        by_cases hp : p a = true
        · rw [List.find?_cons_of_pos _ hp, List.find?_cons_of_pos _ hp]
        · rw [List.find?_cons_of_neg _ hp, List.find?_cons_of_neg _ hp]
          exact ih
      · have hp : ¬ p a = true := fun hpa => hq (h a hpa)
        rw [List.filter_cons_of_neg hq, List.find?_cons_of_neg _ hp]
        exact ih

theorem filter_runQuery (db : List Row) (cols : List String)
    (ks : List (List Scalar)) (p : Row → Bool)
    (hp : ∀ r, p r = true → ∃ t ∈ ks, pluckTuple cols r = some t) :
    (runQuery db cols ks).filter p = db.filter p := by
  rw [runQuery, List.filter_filter]
  apply List.filter_congr
  intro r _
  by_cases hpr : p r = true
  · obtain ⟨t, htk, hpl⟩ := hp r hpr
    simp [hpr, hpl, htk]
  · simp [Bool.eq_false_iff.mpr hpr]

/-- For a key of the current chunk, the collection grouped from the fetched
rows equals the collection grouped from the whole database. -/
theorem collFor_runQuery (db : List Row) (cols : List String)
    (ks : List (List Scalar)) (t : List Scalar) (ht : t ∈ ks) :
    collFor cols (runQuery db cols ks) t = collFor cols db t := by
  unfold collFor
  apply filter_runQuery
  intro r hr
  exact ⟨t, ht, by simpa using hr⟩

theorem dictSet_lookup_self (m : List (List Scalar × Row)) (t : List Scalar) (r : Row) :
    lookupAssoc (dictSet m t r) t = some r := by
  induction m with
  | nil => simp [dictSet, lookupAssoc_cons_self]
  | cons p rest ih =>
      obtain ⟨k, v⟩ := p
      by_cases hk : k = t
      · simp [dictSet, hk, lookupAssoc_cons_self]
      · simp only [dictSet, if_neg hk,
          lookupAssoc_cons_ne _ _ (fun hh => hk hh.symm)]
        exact ih

theorem dictSet_lookup_ne (m : List (List Scalar × Row)) (t : List Scalar) (r : Row)
    {u : List Scalar} (h : u ≠ t) :
    lookupAssoc (dictSet m t r) u = lookupAssoc m u := by
  induction m with
  | nil => simp [dictSet, lookupAssoc_cons_ne _ _ h, lookupAssoc_nil]
  | cons p rest ih =>
      obtain ⟨k, v⟩ := p
      by_cases hk : k = t
      · subst hk
        simp [dictSet, lookupAssoc_cons_ne _ _ h]
      · simp only [dictSet, if_neg hk]
        by_cases hku : u = k
        · subst hku
          simp [lookupAssoc_cons_self]
        · simp only [lookupAssoc_cons_ne _ _ hku]
          exact ih

theorem buildMap_go_lookup (pk : List String) (t : List Scalar) (rows : List Row) :
    ∀ acc : List (List Scalar × Row),
    lookupAssoc (rows.foldl (fun acc r =>
        match get_primary_key_tuple pk r with
        | some u => dictSet acc u r
        | none => acc) acc) t =
      match rows.reverse.find? (fun r => get_primary_key_tuple pk r = some t) with
      | some r => some r
      | none => lookupAssoc acc t := by
  induction rows with
  | nil =>
      intro acc
      simp
  | cons r rows ih =>
      intro acc
      simp only [List.foldl_cons, List.reverse_cons, List.find?_append]
      rcases hf : rows.reverse.find? (fun r => get_primary_key_tuple pk r = some t) with _ | u
      · cases hpl : get_primary_key_tuple pk r with
        | none =>
            have hpr : ¬ ((fun r => decide (get_primary_key_tuple pk r = some t)) r = true) := by
              simp [hpl]
            dsimp only
            rw [ih acc, hf]
            simp [List.find?, hpl, Option.or]
        | some tr =>
            dsimp only
            rw [ih (dictSet acc tr r)]
            rw [hf]
            by_cases htr : tr = t
            · subst htr
              simp [List.find?, hpl, Option.or, dictSet_lookup_self]
            · have hpr : ¬ (get_primary_key_tuple pk r = some t) := by
                rw [hpl]
                intro hc
                cases hc
                exact htr rfl
              simp [List.find?, hpl, Option.or, htr,
                dictSet_lookup_ne acc tr r (fun hh => htr hh.symm)]
      · cases hpl : get_primary_key_tuple pk r with
        | none =>
            dsimp only
            rw [ih acc, hf]
            simp [Option.or]
        | some tr =>
            dsimp only
            rw [ih (dictSet acc tr r), hf]
            simp [Option.or]

/-- The single related object `_load_via_child` attaches for one key: the
last database row with that target primary key, independent of chunking. -/
def relatedFor (pkCols : List String) (db : List Row) (t : List Scalar) : Option Row :=
  lookupMap (buildMap pkCols db) t

theorem buildMap_lookup (pk : List String) (rows : List Row) (t : List Scalar) :
    lookupMap (buildMap pk rows) t =
      rows.reverse.find? (fun r => get_primary_key_tuple pk r = some t) := by
  have := buildMap_go_lookup pk t rows []
  rw [buildMap, lookupMap]
  rw [this]
  rcases h : rows.reverse.find? (fun r => get_primary_key_tuple pk r = some t) with _ | u
  · simp [lookupAssoc_nil]
  · simp

/-- For a key of the current chunk, the related object keyed from the fetched
rows equals the related object keyed from the whole database. -/
theorem relatedFor_runQuery (db : List Row) (pk : List String)
    (ks : List (List Scalar)) (t : List Scalar) (ht : t ∈ ks) :
    lookupMap (buildMap pk (runQuery db pk ks)) t = relatedFor pk db t := by
  rw [buildMap_lookup, relatedFor, buildMap_lookup, runQuery,
    ← List.filter_reverse]
  apply find?_filter_of_imp
  intro r hr
  have hr2 : get_primary_key_tuple pk r = some t := by simpa using hr
  simp [pluckTuple, get_primary_key_tuple] at hr2 ⊢
  rw [hr2]
  simpa using ht

/-! ## `_load_via_child`: what one run writes -/

theorem lastWrite_of_uniform {ws : List (Nat × FieldVal)} {j : Nat} {v : FieldVal}
    (hex : ∃ w ∈ ws, w.fst = j) (huni : ∀ w ∈ ws, w.fst = j → w.snd = v) :
    lastWrite ws j = some (j, v) := by
  rcases hlw : lastWrite ws j with _ | u
  · rw [lastWrite_eq_none_iff] at hlw
    obtain ⟨w, hw, hwj⟩ := hex
    exact absurd hwj (hlw w hw)
  · obtain ⟨hmem, hfst⟩ := lastWrite_mem hlw
    have hv := huni u hmem hfst
    obtain ⟨a, b⟩ := u
    cases hfst
    cases hv
    rfl

theorem groupWrites_mem {L : JSelectInLoader} {gs : List (List Scalar × List Nat)}
    {data : List (List Scalar × Row)} {chunk : List (List Scalar)}
    {w : Nat × FieldVal} :
    w ∈ groupWrites L gs data chunk ↔
      ∃ k ∈ chunk, w.fst ∈ lookupGroupD gs k ∧
        w.snd = relatedToField L.uselist (lookupMap data k) := by
  simp only [groupWrites, List.mem_flatMap, List.mem_map]
  constructor
  · rintro ⟨k, hk, i, hi, rfl⟩
    exact ⟨k, hk, hi, rfl⟩
  · rintro ⟨k, hk, hi, hv⟩
    refine ⟨k, hk, w.fst, hi, ?_⟩
    obtain ⟨a, b⟩ := w
    simp only at hv
    rw [hv]

/-- The relationship value one chunk of `_load_via_child` stores for parent
`j`, when `j` belongs to exactly the group of key `t` of this chunk and is no
none-state: the related object of `t`, wrapped per cardinality. -/
theorem child_chunk_rel_group (L : JSelectInLoader) {gs : List (List Scalar × List Nat)}
    {ns : List Nat} (data : List (List Scalar × Row)) {chunk : List (List Scalar)}
    {j : Nat} {t : List Scalar} (s : Store)
    (htc : t ∈ chunk) (hjt : j ∈ lookupGroupD gs t)
    (huni : ∀ k ∈ chunk, j ∈ lookupGroupD gs k → k = t) (hns : j ∉ ns) :
    ((applyWrites (ns.map (fun i => (i, FieldVal.vnull)))
        (applyWrites (groupWrites L gs data chunk) s)) j).rel =
      some (relatedToField L.uselist (lookupMap data t)) := by
  rw [applyWrites_rel]
  have hnone : lastWrite (ns.map (fun i => (i, FieldVal.vnull))) j = none := by
    rw [lastWrite_eq_none_iff]
    intro w hw
    simp only [List.mem_map] at hw
    obtain ⟨i, hi, rfl⟩ := hw
    exact fun hh => hns (hh ▸ hi)
  rw [hnone]
  rw [applyWrites_rel]
  have hlast : lastWrite (groupWrites L gs data chunk) j =
      some (j, relatedToField L.uselist (lookupMap data t)) := by
    apply lastWrite_of_uniform
    · exact ⟨(j, relatedToField L.uselist (lookupMap data t)),
        groupWrites_mem.mpr ⟨t, htc, hjt, rfl⟩, rfl⟩
    · intro w hw hwj
      obtain ⟨k, hk, hik, hv⟩ := groupWrites_mem.mp hw
      rw [hv]
      rw [huni k hk (hwj ▸ hik)]
  rw [hlast]

/-- One chunk stores `None` for every none-state parent that is in no group
of the chunk. -/
theorem child_chunk_rel_none {L : JSelectInLoader} {gs : List (List Scalar × List Nat)}
    {ns : List Nat} {data : List (List Scalar × Row)} {chunk : List (List Scalar)}
    {j : Nat} (s : Store) (hns : j ∈ ns) :
    ((applyWrites (ns.map (fun i => (i, FieldVal.vnull)))
        (applyWrites (groupWrites L gs data chunk) s)) j).rel =
      some FieldVal.vnull := by
  rw [applyWrites_rel]
  have hlast : lastWrite (ns.map (fun i => (i, FieldVal.vnull))) j =
      some (j, FieldVal.vnull) := by
    apply lastWrite_of_uniform
    · exact ⟨(j, FieldVal.vnull), List.mem_map.mpr ⟨j, hns, rfl⟩, rfl⟩
    · intro w hw hwj
      simp only [List.mem_map] at hw
      obtain ⟨i, _, rfl⟩ := hw
      rfl
  rw [hlast]

/-- One chunk leaves parents outside its groups and the none set untouched. -/
theorem child_chunk_rel_untouched {L : JSelectInLoader}
    {gs : List (List Scalar × List Nat)} {ns : List Nat}
    {data : List (List Scalar × Row)} {chunk : List (List Scalar)}
    {j : Nat} (s : Store)
    (hno : ∀ k ∈ chunk, j ∉ lookupGroupD gs k) (hns : j ∉ ns) :
    ((applyWrites (ns.map (fun i => (i, FieldVal.vnull)))
        (applyWrites (groupWrites L gs data chunk) s)) j).rel = (s j).rel := by
  rw [applyWrites_rel]
  have hnone : lastWrite (ns.map (fun i => (i, FieldVal.vnull))) j = none := by
    rw [lastWrite_eq_none_iff]
    intro w hw
    simp only [List.mem_map] at hw
    obtain ⟨i, hi, rfl⟩ := hw
    exact fun hh => hns (hh ▸ hi)
  rw [hnone, applyWrites_rel]
  have hnone2 : lastWrite (groupWrites L gs data chunk) j = none := by
    rw [lastWrite_eq_none_iff]
    intro w hw hwj
    obtain ⟨k, hk, hik, _⟩ := groupWrites_mem.mp hw
    exact hno k hk (hwj ▸ hik)
  rw [hnone2]

theorem child_go_row (L : JSelectInLoader) (B : Nat) (db : List Row)
    (gs : List (List Scalar × List Nat)) (ns : List Nat)
    (R : List (List Scalar)) (s : Store) (j : Nat) :
    ((load_via_child_go L B db gs ns R s).store j).row = (s j).row := by
  induction R, s using load_via_child_go.induct L B db gs ns with
  | case1 s => rw [load_via_child_go_nil]
  | case2 k0 krest s chunk remaining fetched data ws s1 nws s2 ih =>
      rw [load_via_child_go_cons]
      show ((load_via_child_go L B db gs ns remaining s2).store j).row = (s j).row
      rw [ih]
      show ((applyWrites nws (applyWrites ws s)) j).row = (s j).row
      rw [applyWrites_row, applyWrites_row]

theorem child_go_rel_untouched (L : JSelectInLoader) (B : Nat) (db : List Row)
    (gs : List (List Scalar × List Nat)) (ns : List Nat) (j : Nat) :
    ∀ (R : List (List Scalar)) (s : Store),
    (∀ k ∈ R, j ∉ lookupGroupD gs k) → (j ∉ ns ∨ R = []) →
    ((load_via_child_go L B db gs ns R s).store j).rel = (s j).rel := by
  intro R s
  induction R, s using load_via_child_go.induct L B db gs ns with
  | case1 s =>
      intro _ _
      rw [load_via_child_go_nil]
  | case2 k0 krest s chunk remaining fetched data ws s1 nws s2 ih =>
      intro hno hns
      have hns2 : j ∉ ns := hns.resolve_right (by simp)
      rw [load_via_child_go_cons]
      show ((load_via_child_go L B db gs ns remaining s2).store j).rel = (s j).rel
      have hrem : ∀ k ∈ remaining, j ∉ lookupGroupD gs k := by
        intro k hk
        have hk2 : k ∈ List.drop (B - 1) krest := hk
        exact hno k (List.mem_cons_of_mem _ (List.drop_subset _ _ hk2))
      rw [ih hrem (Or.inl hns2)]
      show ((applyWrites nws (applyWrites ws s)) j).rel = (s j).rel
      refine child_chunk_rel_untouched s ?_ hns2
      intro k hk
      have hk2 : k ∈ k0 :: List.take (B - 1) krest := hk
      rcases List.mem_cons.mp hk2 with hk3 | hk3
      · subst hk3
        exact hno k (List.mem_cons_self _ _)
      · exact hno k (List.mem_cons_of_mem _ (List.take_subset _ _ hk3))

theorem child_go_rel_none (L : JSelectInLoader) (B : Nat) (db : List Row)
    (gs : List (List Scalar × List Nat)) (ns : List Nat) (j : Nat) :
    ∀ (R : List (List Scalar)) (s : Store),
    j ∈ ns → (∀ k ∈ R, j ∉ lookupGroupD gs k) → R ≠ [] →
    ((load_via_child_go L B db gs ns R s).store j).rel = some FieldVal.vnull := by
  intro R s
  induction R, s using load_via_child_go.induct L B db gs ns with
  | case1 s =>
      intro _ _ hne
      exact absurd rfl hne
  | case2 k0 krest s chunk remaining fetched data ws s1 nws s2 ih =>
      intro hns hno _
      rw [load_via_child_go_cons]
      show ((load_via_child_go L B db gs ns remaining s2).store j).rel
        = some FieldVal.vnull
      have hrem : ∀ k ∈ remaining, j ∉ lookupGroupD gs k := by
        intro k hk
        have hk2 : k ∈ List.drop (B - 1) krest := hk
        exact hno k (List.mem_cons_of_mem _ (List.drop_subset _ _ hk2))
      by_cases hremnil : remaining = []
      · rw [hremnil, load_via_child_go_nil]
        exact child_chunk_rel_none s hns
      · exact ih hns hrem hremnil

theorem child_go_rel_group (L : JSelectInLoader) (B : Nat) (db : List Row)
    (gs : List (List Scalar × List Nat)) (ns : List Nat) (j : Nat) (t : List Scalar) :
    ∀ (R : List (List Scalar)) (s : Store),
    t ∈ R → R.Nodup → j ∈ lookupGroupD gs t →
    (∀ k ∈ R, j ∈ lookupGroupD gs k → k = t) → j ∉ ns →
    ((load_via_child_go L B db gs ns R s).store j).rel =
      some (relatedToField L.uselist (relatedFor L.target_pk_cols db t)) := by
  intro R s
  induction R, s using load_via_child_go.induct L B db gs ns with
  | case1 s =>
      intro ht _ _ _ _
      cases ht
  | case2 k0 krest s chunk remaining fetched data ws s1 nws s2 ih =>
      intro ht hnd hjt huni hns
      have hchunksub : ∀ k, k ∈ chunk → k ∈ k0 :: krest := by
        intro k hk
        have hk2 : k ∈ k0 :: List.take (B - 1) krest := hk
        rcases List.mem_cons.mp hk2 with hk3 | hk3
        · subst hk3; exact List.mem_cons_self _ _
        · exact List.mem_cons_of_mem _ (List.take_subset _ _ hk3)
      have hremsub : ∀ k, k ∈ remaining → k ∈ k0 :: krest := by
        intro k hk
        have hk2 : k ∈ List.drop (B - 1) krest := hk
        exact List.mem_cons_of_mem _ (List.drop_subset _ _ hk2)
      have hsplit : k0 :: krest = chunk ++ remaining := by
        show k0 :: krest = (k0 :: List.take (B - 1) krest) ++ List.drop (B - 1) krest
        simp [List.take_append_drop]
      have hdisj : ∀ k, k ∈ chunk → k ∈ remaining → False := by
        intro k hk1 hk2
        have hnd2 := hnd
        rw [hsplit, List.nodup_append] at hnd2
        exact hnd2.2.2 hk1 hk2
      rw [load_via_child_go_cons]
      show ((load_via_child_go L B db gs ns remaining s2).store j).rel =
        some (relatedToField L.uselist (relatedFor L.target_pk_cols db t))
      by_cases htc : t ∈ chunk
      · have huntouched : ∀ k ∈ remaining, j ∉ lookupGroupD gs k := by
          intro k hk hjk
          have := huni k (hremsub k hk) hjk
          subst this
          exact hdisj k htc hk
        rw [child_go_rel_untouched L B db gs ns j remaining s2 huntouched (Or.inl hns)]
        show ((applyWrites nws (applyWrites ws s)) j).rel =
          some (relatedToField L.uselist (relatedFor L.target_pk_cols db t))
        have hc := child_chunk_rel_group L data s htc hjt
          (fun k hk hjk => huni k (hchunksub k hk) hjk) hns
        rw [hc]
        have hdata : lookupMap data t = relatedFor L.target_pk_cols db t := by
          show lookupMap (buildMap L.target_pk_cols
            (runQuery db L.target_pk_cols chunk)) t = relatedFor L.target_pk_cols db t
          exact relatedFor_runQuery db L.target_pk_cols chunk t htc
        rw [hdata]
      · have htrem : t ∈ remaining := by
          have : t ∈ chunk ++ remaining := by rw [← hsplit]; exact ht
          rcases List.mem_append.mp this with h1 | h1
          · exact absurd h1 htc
          · exact h1
        have hndrem : remaining.Nodup := by
          have hnd2 := hnd
          rw [hsplit, List.nodup_append] at hnd2
          exact hnd2.2.1
        exact ih htrem hndrem hjt (fun k hk => huni k (hremsub k hk)) hns

/-! ## `_load_via_child`: trace shape -/

theorem execKeysJoin_nil : execKeysJoin [] = [] := rfl

theorem execKeysJoin_cons_write (i : Nat) (l : List Event) :
    execKeysJoin (Event.write i :: l) = execKeysJoin l := rfl

theorem execKeysJoin_cons_yield (r : Row) (l : List Event) :
    execKeysJoin (Event.yieldRow r :: l) = execKeysJoin l := rfl

theorem execKeysJoin_cons_exec (ks : List (List Scalar)) (l : List Event) :
    execKeysJoin (Event.exec ks :: l) = ks ++ execKeysJoin l := rfl

theorem execKeysJoin_writes (ws : List (Nat × FieldVal)) (l : List Event) :
    execKeysJoin (ws.map (fun w => Event.write w.fst) ++ l) = execKeysJoin l := by
  induction ws with
  | nil => rfl
  | cons w ws ih =>
      rw [List.map_cons, List.cons_append, execKeysJoin_cons_write]
      exact ih

theorem execKeysJoin_yields (rs : List Row) (l : List Event) :
    execKeysJoin (rs.map Event.yieldRow ++ l) = execKeysJoin l := by
  induction rs with
  | nil => rfl
  | cons r rs ih =>
      rw [List.map_cons, List.cons_append, execKeysJoin_cons_yield]
      exact ih

theorem child_go_execKeysJoin (L : JSelectInLoader) (B : Nat) (db : List Row)
    (gs : List (List Scalar × List Nat)) (ns : List Nat) :
    ∀ (R : List (List Scalar)) (s : Store),
    execKeysJoin (load_via_child_go L B db gs ns R s).events = R := by
  intro R s
  induction R, s using load_via_child_go.induct L B db gs ns with
  | case1 s =>
      rw [load_via_child_go_nil]
      rfl
  | case2 k0 krest s chunk remaining fetched data ws s1 nws s2 ih =>
      rw [load_via_child_go_cons]
      show execKeysJoin (Event.exec chunk :: (ws.map (fun w => Event.write w.fst)
        ++ (ns.map (fun i => (i, FieldVal.vnull))).map (fun w => Event.write w.fst)
        ++ (data.map Prod.snd).map Event.yieldRow
        ++ (load_via_child_go L B db gs ns remaining s2).events)) = k0 :: krest
      rw [execKeysJoin_cons_exec, List.append_assoc, List.append_assoc,
        execKeysJoin_writes, execKeysJoin_writes, execKeysJoin_yields, ih]
      show (k0 :: List.take (B - 1) krest) ++ List.drop (B - 1) krest = k0 :: krest
      simp [List.take_append_drop]

theorem ceilDiv_zero (b : Nat) (hb : 1 ≤ b) : ceilDiv 0 b = 0 := by
  rw [ceilDiv]
  exact Nat.div_eq_of_lt (by omega)

theorem ceilDiv_chunk_step {n b : Nat} (hb : 1 ≤ b) (hn : 1 ≤ n) :
    ceilDiv n b = 1 + ceilDiv (n - b) b := by
  by_cases h : n ≤ b
  · have hnb : n - b = 0 := by omega
    rw [hnb, ceilDiv, ceilDiv]
    have h2 : (0 + b - 1) / b = 0 := Nat.div_eq_of_lt (by omega)
    have hge : 1 ≤ (n + b - 1) / b := by
      rw [Nat.le_div_iff_mul_le (by omega)]
      omega
    have hlt : (n + b - 1) / b < 2 := by
      rw [Nat.div_lt_iff_lt_mul (by omega)]
      omega
    omega
  · have h1 : n + b - 1 = (n - 1) + b := by omega
    have h2 : n - b + b - 1 = n - 1 := by omega
    rw [ceilDiv, ceilDiv, h1, h2, Nat.add_div_right _ (by omega)]
    omega

theorem execCount_cons_write (i : Nat) (l : List Event) :
    execCount (Event.write i :: l) = execCount l := rfl

theorem execCount_cons_yield (r : Row) (l : List Event) :
    execCount (Event.yieldRow r :: l) = execCount l := rfl

theorem execCount_cons_exec (ks : List (List Scalar)) (l : List Event) :
    execCount (Event.exec ks :: l) = 1 + execCount l := by
  simp [execCount, List.filter_cons, Nat.add_comm]

theorem execCount_writes (ws : List (Nat × FieldVal)) (l : List Event) :
    execCount (ws.map (fun w => Event.write w.fst) ++ l) = execCount l := by
  induction ws with
  | nil => rfl
  | cons w ws ih =>
      rw [List.map_cons, List.cons_append, execCount_cons_write]
      exact ih

theorem execCount_yields (rs : List Row) (l : List Event) :
    execCount (rs.map Event.yieldRow ++ l) = execCount l := by
  induction rs with
  | nil => rfl
  | cons r rs ih =>
      rw [List.map_cons, List.cons_append, execCount_cons_yield]
      exact ih

theorem child_go_execCount (L : JSelectInLoader) (B : Nat) (db : List Row)
    (gs : List (List Scalar × List Nat)) (ns : List Nat) (hB : 1 ≤ B) :
    ∀ (R : List (List Scalar)) (s : Store),
    execCount (load_via_child_go L B db gs ns R s).events = ceilDiv R.length B := by
  intro R s
  induction R, s using load_via_child_go.induct L B db gs ns with
  | case1 s =>
      rw [load_via_child_go_nil]
      show execCount [] = ceilDiv ([] : List (List Scalar)).length B
      rw [List.length_nil, ceilDiv_zero B hB]
      rfl
  | case2 k0 krest s chunk remaining fetched data ws s1 nws s2 ih =>
      rw [load_via_child_go_cons]
      show execCount (Event.exec chunk :: (ws.map (fun w => Event.write w.fst)
        ++ (ns.map (fun i => (i, FieldVal.vnull))).map (fun w => Event.write w.fst)
        ++ (data.map Prod.snd).map Event.yieldRow
        ++ (load_via_child_go L B db gs ns remaining s2).events))
        = ceilDiv (k0 :: krest).length B
      rw [execCount_cons_exec, List.append_assoc, List.append_assoc,
        execCount_writes, execCount_writes, execCount_yields, ih]
      have hlen : remaining.length = (k0 :: krest).length - B := by
        show (List.drop (B - 1) krest).length = (k0 :: krest).length - B
        rw [List.length_drop, List.length_cons]
        omega
      rw [hlen]
      rw [show ceilDiv ((k0 :: krest).length) B
          = 1 + ceilDiv ((k0 :: krest).length - B) B from
        ceilDiv_chunk_step hB (by rw [List.length_cons]; omega)]

theorem child_go_exec_sorted (L : JSelectInLoader) (B : Nat) (db : List Row)
    (gs : List (List Scalar × List Nat)) (ns : List Nat) :
    ∀ (R : List (List Scalar)) (s : Store),
    List.Pairwise keyLeP R →
    ∀ ks, Event.exec ks ∈ (load_via_child_go L B db gs ns R s).events →
    List.Pairwise keyLeP ks := by
  intro R s
  induction R, s using load_via_child_go.induct L B db gs ns with
  | case1 s =>
      intro _ ks hmem
      rw [load_via_child_go_nil] at hmem
      cases hmem
  | case2 k0 krest s chunk remaining fetched data ws s1 nws s2 ih =>
      intro hsorted ks hmem
      rw [load_via_child_go_cons] at hmem
      have hmem2 : Event.exec ks ∈ Event.exec chunk ::
          (ws.map (fun w => Event.write w.fst)
          ++ (ns.map (fun i => (i, FieldVal.vnull))).map (fun w => Event.write w.fst)
          ++ (data.map Prod.snd).map Event.yieldRow
          ++ (load_via_child_go L B db gs ns remaining s2).events) := hmem
      rcases List.mem_cons.mp hmem2 with h1 | h1
      · have hks : ks = chunk := by cases h1; rfl
        subst hks
        have hsub : chunk.Sublist (k0 :: krest) := by
          show (k0 :: List.take (B - 1) krest).Sublist (k0 :: krest)
          exact List.Sublist.cons₂ k0 (List.take_sublist _ _)
        exact hsorted.sublist hsub
      · have h2 : Event.exec ks ∈ (load_via_child_go L B db gs ns remaining s2).events := by
          simpa using h1
        have hsortedrem : List.Pairwise keyLeP remaining := by
          have hsub : remaining.Sublist (k0 :: krest) := by
            show (List.drop (B - 1) krest).Sublist (k0 :: krest)
            exact ((List.drop_sublist _ _).trans (List.sublist_cons_self _ _))
          exact hsorted.sublist hsub
        exact ih hsortedrem ks h2

theorem bpbyGo_writes (ws : List (Nat × FieldVal)) (l : List Event) :
    bpbyGo false (ws.map (fun w => Event.write w.fst) ++ l) = bpbyGo false l := by
  induction ws with
  | nil => rfl
  | cons w ws ih => simp [bpbyGo, ih]

theorem bpbyGo_yields (rs : List Row) (b : Bool) (l : List Event) :
    bpbyGo b (rs.map Event.yieldRow ++ l) =
      if rs.isEmpty then bpbyGo b l else bpbyGo true l := by
  induction rs generalizing b with
  | nil => simp
  | cons r rs ih =>
      rw [List.map_cons, List.cons_append]
      rw [show ∀ l2, bpbyGo b (Event.yieldRow r :: l2) = bpbyGo true l2 from
        fun l2 => rfl]
      cases rs with
      | nil => simp
      | cons r2 rs2 => simpa using ih true

/-- In `_load_via_child`, within every batch all population writes (including
the none-state writes) happen before any row of the batch is yielded. -/
theorem child_go_bpby (L : JSelectInLoader) (B : Nat) (db : List Row)
    (gs : List (List Scalar × List Nat)) (ns : List Nat) :
    ∀ (R : List (List Scalar)) (s : Store) (b : Bool),
    bpbyGo b (load_via_child_go L B db gs ns R s).events = true := by
  intro R s
  induction R, s using load_via_child_go.induct L B db gs ns with
  | case1 s =>
      intro b
      rw [load_via_child_go_nil]
      rfl
  | case2 k0 krest s chunk remaining fetched data ws s1 nws s2 ih =>
      intro b
      rw [load_via_child_go_cons]
      show bpbyGo b (Event.exec chunk :: (ws.map (fun w => Event.write w.fst)
        ++ (ns.map (fun i => (i, FieldVal.vnull))).map (fun w => Event.write w.fst)
        ++ (data.map Prod.snd).map Event.yieldRow
        ++ (load_via_child_go L B db gs ns remaining s2).events)) = true
      rw [show ∀ l : List Event, bpbyGo b (Event.exec chunk :: l)
          = bpbyGo false l from fun l => rfl]
      rw [List.append_assoc, List.append_assoc]
      rw [bpbyGo_writes, bpbyGo_writes, bpbyGo_yields]
      by_cases hy : ((data.map Prod.snd).isEmpty : Bool)
      · rw [if_pos hy]
        exact ih false
      · rw [if_neg hy]
        exact ih true

/-! ## `_load_via_parent`: canonical (chunk-independent) population -/

theorem load_via_parent_go_cons_err (L : JSelectInLoader) (B : Nat) (db : List Row)
    (x : List Scalar × Nat) (rest : List (List Scalar × Nat)) (s : Store)
    (h : (processStates L
        (buildData L.fk_cols (runQuery db L.fk_cols ((x :: rest.take (B - 1)).map Prod.fst)))
        (x :: rest.take (B - 1)) s).errored = true) :
    load_via_parent_go L B db (x :: rest) s =
      ⟨(processStates L
          (buildData L.fk_cols (runQuery db L.fk_cols ((x :: rest.take (B - 1)).map Prod.fst)))
          (x :: rest.take (B - 1)) s).store,
       .exec ((x :: rest.take (B - 1)).map Prod.fst) ::
         (processStates L
            (buildData L.fk_cols (runQuery db L.fk_cols ((x :: rest.take (B - 1)).map Prod.fst)))
            (x :: rest.take (B - 1)) s).events,
       true⟩ := by
  rw [load_via_parent_go_cons]
  simp only [h, if_true]

theorem load_via_parent_go_cons_ok (L : JSelectInLoader) (B : Nat) (db : List Row)
    (x : List Scalar × Nat) (rest : List (List Scalar × Nat)) (s : Store)
    (h : (processStates L
        (buildData L.fk_cols (runQuery db L.fk_cols ((x :: rest.take (B - 1)).map Prod.fst)))
        (x :: rest.take (B - 1)) s).errored = false) :
    load_via_parent_go L B db (x :: rest) s =
      ⟨(load_via_parent_go L B db (rest.drop (B - 1))
          (processStates L
            (buildData L.fk_cols (runQuery db L.fk_cols ((x :: rest.take (B - 1)).map Prod.fst)))
            (x :: rest.take (B - 1)) s).store).store,
       .exec ((x :: rest.take (B - 1)).map Prod.fst) ::
         ((processStates L
            (buildData L.fk_cols (runQuery db L.fk_cols ((x :: rest.take (B - 1)).map Prod.fst)))
            (x :: rest.take (B - 1)) s).events ++
          (load_via_parent_go L B db (rest.drop (B - 1))
            (processStates L
              (buildData L.fk_cols (runQuery db L.fk_cols ((x :: rest.take (B - 1)).map Prod.fst)))
              (x :: rest.take (B - 1)) s).store).events),
       (load_via_parent_go L B db (rest.drop (B - 1))
          (processStates L
            (buildData L.fk_cols (runQuery db L.fk_cols ((x :: rest.take (B - 1)).map Prod.fst)))
            (x :: rest.take (B - 1)) s).store).errored⟩ := by
  rw [load_via_parent_go_cons]
  simp only [h, if_false, Bool.false_eq_true]

/-- `_load_via_parent`'s per-state population against the canonical
collections drawn from the whole database: the reference the chunked driver
is proved equal to (store and error outcome). -/
def processStatesCanon (L : JSelectInLoader) (db : List Row) :
    List (List Scalar × Nat) → Store → Store × Bool
  | [], s => (s, false)
  | (k, i) :: rest, s =>
      match collFor L.fk_cols db k with
      | [] =>
          if L.uselist then
            processStatesCanon L db rest (setRel s i (.vlist []))
          else (setRel s i .vnull, true)
      | r :: tail =>
          if L.uselist then
            processStatesCanon L db rest
              (setRel s i (.vlist ((r :: tail).map some)))
          else
            processStatesCanon L db rest (setRel s i (.vrow r))

theorem processStates_eq_canon (L : JSelectInLoader) (db : List Row)
    (data : List (List Scalar × List Row)) :
    ∀ (chunk : List (List Scalar × Nat)) (s : Store),
    (∀ kv ∈ chunk, lookupData data kv.fst =
      (if (collFor L.fk_cols db kv.fst).isEmpty then none
       else some (collFor L.fk_cols db kv.fst))) →
    (processStates L data chunk s).store = (processStatesCanon L db chunk s).fst
    ∧ (processStates L data chunk s).errored = (processStatesCanon L db chunk s).snd := by
  intro chunk
  induction chunk with
  | nil => intro s _; exact ⟨rfl, rfl⟩
  | cons kv rest ih =>
      intro s hdata
      obtain ⟨k, i⟩ := kv
      have hk := hdata (k, i) (List.mem_cons_self _ _)
      have hrest : ∀ kv ∈ rest, lookupData data kv.fst =
          (if (collFor L.fk_cols db kv.fst).isEmpty then none
           else some (collFor L.fk_cols db kv.fst)) :=
        fun kv hkv => hdata kv (List.mem_cons_of_mem _ hkv)
      cases hcoll : collFor L.fk_cols db k with
      | nil =>
          have hlook : lookupData data k = none := by
            rw [hk, hcoll]
            rfl
          by_cases hul : L.uselist
          · simp only [processStates, processStatesCanon, hlook, hcoll, hul, if_true]
            exact ih _ hrest
          · simp only [processStates, processStatesCanon, hlook, hcoll, hul, if_false]
            exact ⟨rfl, rfl⟩
      | cons r tail =>
          have hlook : lookupData data k = some (r :: tail) := by
            rw [hk, hcoll]
            rfl
          by_cases hul : L.uselist
          · simp only [processStates, processStatesCanon, hlook, hcoll, hul, if_true]
            exact ih _ hrest
          · simp only [processStates, processStatesCanon, hlook, hcoll, hul, if_false]
            exact ih _ hrest

theorem canon_append (L : JSelectInLoader) (db : List Row) :
    ∀ (l1 l2 : List (List Scalar × Nat)) (s : Store),
    processStatesCanon L db (l1 ++ l2) s =
      (if (processStatesCanon L db l1 s).snd then processStatesCanon L db l1 s
       else processStatesCanon L db l2 (processStatesCanon L db l1 s).fst) := by
  intro l1
  induction l1 with
  | nil =>
      intro l2 s
      simp [processStatesCanon]
  | cons kv rest ih =>
      intro l2 s
      obtain ⟨k, i⟩ := kv
      cases hcoll : collFor L.fk_cols db k with
      | nil =>
          by_cases hul : L.uselist
          · simp only [List.cons_append, processStatesCanon, hcoll, hul, if_true]
            exact ih l2 _
          · simp only [List.cons_append, processStatesCanon, hcoll]
            simp only [if_neg hul]
            simp
      | cons r tail =>
          by_cases hul : L.uselist
          · simp only [List.cons_append, processStatesCanon, hcoll, hul, if_true]
            exact ih l2 _
          · simp only [List.cons_append, processStatesCanon, hcoll]
            simp only [if_neg hul]
            exact ih l2 _

theorem parent_go_canon (L : JSelectInLoader) (B : Nat) (db : List Row) :
    ∀ (states : List (List Scalar × Nat)) (s : Store),
    (load_via_parent_go L B db states s).store = (processStatesCanon L db states s).fst
    ∧ (load_via_parent_go L B db states s).errored
      = (processStatesCanon L db states s).snd := by
  intro states s
  induction states, s using load_via_parent_go.induct L B db with
  | case1 s =>
      rw [load_via_parent_go_nil]
      exact ⟨rfl, rfl⟩
  | case2 x rest s chunk primary_keys fetched data out herr =>
      have hsplit : x :: rest = (x :: rest.take (B - 1)) ++ rest.drop (B - 1) := by
        simp [List.take_append_drop]
      have hdata : ∀ kv ∈ x :: rest.take (B - 1),
          lookupData (buildData L.fk_cols
            (runQuery db L.fk_cols ((x :: rest.take (B - 1)).map Prod.fst))) kv.fst =
          (if (collFor L.fk_cols db kv.fst).isEmpty then none
           else some (collFor L.fk_cols db kv.fst)) := by
        intro kv hkv
        rw [buildData_lookup,
          collFor_runQuery db L.fk_cols _ kv.fst (List.mem_map_of_mem _ hkv)]
      have heq := processStates_eq_canon L db _ (x :: rest.take (B - 1)) s hdata
      have hcs : (processStatesCanon L db (x :: rest.take (B - 1)) s).snd = true :=
        heq.2.symm.trans herr
      rw [load_via_parent_go_cons_err L B db x rest s herr]
      rw [hsplit, canon_append, if_pos hcs]
      exact ⟨heq.1, hcs.symm⟩
  | case3 x rest s chunk remaining primary_keys fetched data out hne ih =>
      have herr : (processStates L
          (buildData L.fk_cols (runQuery db L.fk_cols ((x :: rest.take (B - 1)).map Prod.fst)))
          (x :: rest.take (B - 1)) s).errored = false := by
        rw [Bool.not_eq_true] at hne
        exact hne
      have hsplit : x :: rest = (x :: rest.take (B - 1)) ++ rest.drop (B - 1) := by
        simp [List.take_append_drop]
      have hdata : ∀ kv ∈ x :: rest.take (B - 1),
          lookupData (buildData L.fk_cols
            (runQuery db L.fk_cols ((x :: rest.take (B - 1)).map Prod.fst))) kv.fst =
          (if (collFor L.fk_cols db kv.fst).isEmpty then none
           else some (collFor L.fk_cols db kv.fst)) := by
        intro kv hkv
        rw [buildData_lookup,
          collFor_runQuery db L.fk_cols _ kv.fst (List.mem_map_of_mem _ hkv)]
      have heq := processStates_eq_canon L db _ (x :: rest.take (B - 1)) s hdata
      have hcs : (processStatesCanon L db (x :: rest.take (B - 1)) s).snd = false :=
        heq.2.symm.trans herr
      rw [load_via_parent_go_cons_ok L B db x rest s herr]
      rw [hsplit, canon_append, if_neg (by rw [hcs]; simp)]
      have hstore : out.store
          = (processStatesCanon L db (x :: rest.take (B - 1)) s).fst := heq.1
      constructor
      · show (load_via_parent_go L B db (rest.drop (B - 1)) out.store).store = _
        rw [ih.1, hstore]
      · show (load_via_parent_go L B db (rest.drop (B - 1)) out.store).errored = _
        rw [ih.2, hstore]

theorem processStates_row (L : JSelectInLoader)
    (data : List (List Scalar × List Row)) :
    ∀ (chunk : List (List Scalar × Nat)) (s : Store) (j : Nat),
    ((processStates L data chunk s).store j).row = (s j).row := by
  intro chunk
  induction chunk with
  | nil => intro s j; rfl
  | cons kv rest ih =>
      intro s j
      obtain ⟨k, i⟩ := kv
      cases hl : lookupData data k with
      | none =>
          by_cases hul : L.uselist
          · simp only [processStates, hl, hul, if_true]
            rw [ih, setRel_row]
          · simp only [processStates, hl]
            simp only [if_neg hul]
            rw [setRel_row]
      | some coll =>
          by_cases hul : L.uselist
          · simp only [processStates, hl, hul, if_true]
            rw [ih, setRel_row]
          · simp only [processStates, hl]
            simp only [if_neg hul]
            cases coll with
            | nil => rw [ih, setRel_row]
            | cons r tail => rw [ih, setRel_row]

theorem parent_go_row (L : JSelectInLoader) (B : Nat) (db : List Row) :
    ∀ (states : List (List Scalar × Nat)) (s : Store) (j : Nat),
    ((load_via_parent_go L B db states s).store j).row = (s j).row := by
  intro states s
  induction states, s using load_via_parent_go.induct L B db with
  | case1 s =>
      intro j
      rw [load_via_parent_go_nil]
  | case2 x rest s chunk primary_keys fetched data out herr =>
      intro j
      rw [load_via_parent_go_cons_err L B db x rest s herr]
      exact processStates_row L _ _ s j
  | case3 x rest s chunk remaining primary_keys fetched data out hne ih =>
      intro j
      rw [load_via_parent_go_cons_ok L B db x rest s
        (by rw [Bool.not_eq_true] at hne; exact hne)]
      show ((load_via_parent_go L B db (rest.drop (B - 1)) out.store).store j).row
        = (s j).row
      rw [ih j]
      exact processStates_row L _ _ s j

theorem execCount_append (l1 l2 : List Event) :
    execCount (l1 ++ l2) = execCount l1 + execCount l2 := by
  simp [execCount, List.filter_append]

theorem execCount_cons_warn (l : List Event) :
    execCount (Event.warn :: l) = execCount l := rfl

theorem processStates_execCount (L : JSelectInLoader)
    (data : List (List Scalar × List Row)) :
    ∀ (chunk : List (List Scalar × Nat)) (s : Store),
    execCount (processStates L data chunk s).events = 0 := by
  intro chunk
  induction chunk with
  | nil => intro s; rfl
  | cons kv rest ih =>
      intro s
      obtain ⟨k, i⟩ := kv
      cases hl : lookupData data k with
      | none =>
          by_cases hul : L.uselist
          · simp only [processStates, hl, hul, if_true]
            rw [execCount_cons_write, ih]
          · simp only [processStates, hl]
            simp only [if_neg hul]
            rfl
      | some coll =>
          by_cases hul : L.uselist
          · simp only [processStates, hl, hul, if_true]
            rw [execCount_cons_write, execCount_yields, ih]
          · simp only [processStates, hl]
            simp only [if_neg hul]
            cases coll with
            | nil => rw [execCount_cons_write, ih]
            | cons r tail =>
                cases htail : tail.isEmpty with
                | true =>
                    simp only [htail, if_true, List.nil_append]
                    rw [execCount_cons_write, execCount_yields, ih]
                | false =>
                    simp only [htail, Bool.false_eq_true, if_false,
                      List.singleton_append]
                    rw [execCount_cons_warn, execCount_cons_write,
                      execCount_yields, ih]

theorem parent_go_execCount (L : JSelectInLoader) (B : Nat) (db : List Row)
    (hB : 1 ≤ B) :
    ∀ (states : List (List Scalar × Nat)) (s : Store),
    (load_via_parent_go L B db states s).errored = false →
    execCount (load_via_parent_go L B db states s).events = ceilDiv states.length B := by
  intro states s
  induction states, s using load_via_parent_go.induct L B db with
  | case1 s =>
      intro _
      rw [load_via_parent_go_nil]
      show execCount [] = ceilDiv ([] : List (List Scalar × Nat)).length B
      rw [List.length_nil, ceilDiv_zero B hB]
      rfl
  | case2 x rest s chunk primary_keys fetched data out herr =>
      intro h
      rw [load_via_parent_go_cons_err L B db x rest s herr] at h
      simp at h
  | case3 x rest s chunk remaining primary_keys fetched data out hne ih =>
      intro h
      have herr : (processStates L
          (buildData L.fk_cols (runQuery db L.fk_cols ((x :: rest.take (B - 1)).map Prod.fst)))
          (x :: rest.take (B - 1)) s).errored = false := by
        rw [Bool.not_eq_true] at hne
        exact hne
      rw [load_via_parent_go_cons_ok L B db x rest s herr] at h ⊢
      have htail : (load_via_parent_go L B db (rest.drop (B - 1))
          (processStates L
            (buildData L.fk_cols (runQuery db L.fk_cols ((x :: rest.take (B - 1)).map Prod.fst)))
            (x :: rest.take (B - 1)) s).store).errored = false := h
      show execCount (Event.exec ((x :: rest.take (B - 1)).map Prod.fst) :: _) = _
      rw [execCount_cons_exec, execCount_append, processStates_execCount]
      have ihh := ih htail
      rw [ihh]
      have hlen : (rest.drop (B - 1)).length = (x :: rest).length - B := by
        rw [List.length_drop, List.length_cons]
        omega
      rw [hlen]
      rw [show ceilDiv ((x :: rest).length) B
          = 1 + ceilDiv ((x :: rest).length - B) B from
        ceilDiv_chunk_step hB (by rw [List.length_cons]; omega)]
      omega

/-! ## `_load_via_parent`: relationship values per state -/

theorem canon_rel_untouched (L : JSelectInLoader) (db : List Row) :
    ∀ (states : List (List Scalar × Nat)) (s : Store) (j : Nat),
    j ∉ states.map Prod.snd →
    ((processStatesCanon L db states s).fst j).rel = (s j).rel := by
  intro states
  induction states with
  | nil => intro s j _; rfl
  | cons kv rest ih =>
      intro s j hj
      obtain ⟨k, i⟩ := kv
      have hji : j ≠ i := by
        intro hh
        exact hj (by simp [hh])
      have hjrest : j ∉ rest.map Prod.snd := by
        intro hh
        exact hj (by simp [hh])
      cases hcoll : collFor L.fk_cols db k with
      | nil =>
          by_cases hul : L.uselist
          · simp only [processStatesCanon, hcoll, hul, if_true]
            rw [ih _ _ hjrest, setRel_rel_ne _ _ _ hji]
          · simp only [processStatesCanon, hcoll]
            simp only [if_neg hul]
            rw [setRel_rel_ne _ _ _ hji]
      | cons r tail =>
          by_cases hul : L.uselist
          · simp only [processStatesCanon, hcoll, hul, if_true]
            rw [ih _ _ hjrest, setRel_rel_ne _ _ _ hji]
          · simp only [processStatesCanon, hcoll]
            simp only [if_neg hul]
            rw [ih _ _ hjrest, setRel_rel_ne _ _ _ hji]

theorem canon_cons_uselist (L : JSelectInLoader) (db : List Row)
    (hul : L.uselist = true) (k0 : List Scalar) (i0 : Nat)
    (rest : List (List Scalar × Nat)) (s : Store) :
    processStatesCanon L db ((k0, i0) :: rest) s =
      processStatesCanon L db rest
        (setRel s i0 (.vlist ((collFor L.fk_cols db k0).map some))) := by
  cases hcoll : collFor L.fk_cols db k0 with
  | nil => simp only [processStatesCanon, hcoll, hul, if_true, List.map_nil]
  | cons r tail => simp only [processStatesCanon, hcoll, hul, if_true]

theorem canon_rel_uselist (L : JSelectInLoader) (db : List Row)
    (hul : L.uselist = true) :
    ∀ (states : List (List Scalar × Nat)) (s : Store) (j : Nat) (k : List Scalar),
    (k, j) ∈ states → (∀ kk, (kk, j) ∈ states → kk = k) →
    ((processStatesCanon L db states s).fst j).rel =
      some (.vlist ((collFor L.fk_cols db k).map some)) := by
  intro states
  induction states with
  | nil =>
      intro s j k hmem _
      cases hmem
  | cons kv rest ih =>
      intro s j k hmem huniq
      obtain ⟨k0, i0⟩ := kv
      rw [canon_cons_uselist L db hul]
      by_cases hjr : j ∈ rest.map Prod.snd
      · obtain ⟨kv2, hkv2, hsnd⟩ := List.mem_map.mp hjr
        obtain ⟨k2, j2⟩ := kv2
        have hj2 : j2 = j := hsnd
        subst hj2
        have hk2 : k2 = k := huniq k2 (List.mem_cons_of_mem _ hkv2)
        subst hk2
        exact ih _ j2 k2 hkv2
          (fun kk hkk => huniq kk (List.mem_cons_of_mem _ hkk))
      · have hhead : (k, j) = (k0, i0) := by
          rcases List.mem_cons.mp hmem with h1 | h1
          · exact h1
          · exact absurd (List.mem_map.mpr ⟨(k, j), h1, rfl⟩) hjr
        have hkk : k = k0 := congrArg Prod.fst hhead
        have hjj : j = i0 := congrArg Prod.snd hhead
        subst hkk
        subst hjj
        rw [canon_rel_untouched L db rest _ j hjr]
        rw [setRel_rel_self]

/-! ## Facts about the partitioned output used by the claims -/

theorem PState_ext {p q : PState} (h1 : p.row = q.row) (h2 : p.rel = q.rel) :
    p = q := by
  cases p
  cases q
  cases h1
  cases h2
  rfl

theorem prepChildGo_keys_nullfree (cols : List String) (store : Store)
    (states : List Nat) :
    ∀ (acc : List (List Scalar × List Nat)) (accN : List Nat)
      (gs : List (List Scalar × List Nat)) (ns : List Nat),
      (∀ k ∈ acc.map Prod.fst, Scalar.null ∉ k) →
      prepChildGo cols store states acc accN = .ok (gs, ns) →
      ∀ k ∈ gs.map Prod.fst, Scalar.null ∉ k := by
  induction states with
  | nil =>
      intro acc accN gs ns hnf h
      simp only [prepChildGo, Except.ok.injEq, Prod.mk.injEq] at h
      obtain ⟨h1, _⟩ := h
      subst h1
      exact hnf
  | cons j rest ih =>
      intro acc accN gs ns hnf h
      simp only [prepChildGo] at h
      split at h
      · cases h
      next x tj heq =>
        split at h
        next hn => exact ih _ _ _ _ hnf h
        next hn =>
          refine ih _ _ _ _ ?_ h
          rw [addToGroup_keys]
          by_cases hmem : tj ∈ acc.map Prod.fst
          · rw [if_pos hmem]
            exact hnf
          · rw [if_neg hmem]
            intro k hk
            rcases List.mem_append.mp hk with hk1 | hk1
            · exact hnf k hk1
            · have : k = tj := by simpa using hk1
              subst this
              exact hn

theorem lookupGroupD_ne_nil_mem_keys {gs : List (List Scalar × List Nat)}
    {t : List Scalar} (h : lookupGroupD gs t ≠ []) : t ∈ gs.map Prod.fst := by
  rcases hf : gs.find? (fun p => p.fst = t) with _ | p
  · exact absurd (by simp [lookupGroupD, lookupAssoc, hf]) h
  · have hp1 := List.mem_of_find?_eq_some hf
    have hp2 : p.fst = t := by simpa using List.find?_some hf
    subst hp2
    exact List.mem_map_of_mem _ hp1

/-- What `prepare_states` returns in the MANYTOONE case. -/
theorem prepare_states_child_ok {L : JSelectInLoader} {states : List Nat}
    {store : Store} {gs : List (List Scalar × List Nat)} {ns : List Nat}
    (hL : L.load_only_child = true)
    (h : prepare_states L states store = .ok (.childStates gs ns)) :
    prepChildGo L.child_lookup_cols store states [] [] = .ok (gs, ns) := by
  rw [prepare_states, if_pos hL] at h
  cases hgo : prepChildGo L.child_lookup_cols store states [] [] with
  | error e => rw [hgo] at h; cases h
  | ok p =>
      rw [hgo] at h
      obtain ⟨p1, p2⟩ := p
      simp only [Except.map, Except.ok.injEq, Prepared.childStates.injEq] at h
      obtain ⟨h1, h2⟩ := h
      rw [h1, h2]

/-- What `prepare_states` returns in the ONETOMANY/MANYTOMANY case. -/
theorem prepare_states_parent_ok {L : JSelectInLoader} {states : List Nat}
    {store : Store} {ps : List (List Scalar × Nat)}
    (hL : L.load_only_child = false)
    (h : prepare_states L states store = .ok (.parentStates ps)) :
    states.mapM (fun j =>
        match get_primary_key_tuple L.source_pk_cols (store j).row with
        | some t => Except.ok (t, j)
        | none => Except.error PrepError.incompleteRecord) = .ok ps := by
  rw [prepare_states, if_neg (by rw [hL]; simp)] at h
  cases hgo : states.mapM (fun j =>
      match get_primary_key_tuple L.source_pk_cols (store j).row with
      | some t => Except.ok (t, j)
      | none => Except.error PrepError.incompleteRecord) with
  | error e => rw [hgo] at h; cases h
  | ok l =>
      rw [hgo] at h
      simp only [Except.map, Except.ok.injEq, Prepared.parentStates.injEq] at h
      rw [h]

theorem mapM_ok_forall {α β : Type} (f : α → Except PrepError β) :
    ∀ (l : List α) (out : List β), l.mapM f = .ok out →
    ∀ x ∈ out, ∃ a ∈ l, f a = .ok x := by
  intro l
  induction l with
  | nil =>
      intro out h x hx
      simp only [List.mapM_nil, pure, Except.pure, Except.ok.injEq] at h
      subst h
      cases hx
  | cons a rest ih =>
      intro out h x hx
      rw [List.mapM_cons] at h
      cases hfa : f a with
      | error e => rw [hfa] at h; cases h
      | ok b =>
          rw [hfa] at h
          cases hrest : rest.mapM f with
          | error e =>
              rw [hrest] at h
              cases h
          | ok bs =>
              rw [hrest] at h
              simp only [bind, Except.bind, pure, Except.pure, Except.ok.injEq] at h
              subst h
              rcases List.mem_cons.mp hx with hx1 | hx1
              · exact ⟨a, List.mem_cons_self _ _, by rw [hfa, hx1]⟩
              · obtain ⟨a2, ha2, hfa2⟩ := ih bs hrest x hx1
                exact ⟨a2, List.mem_cons_of_mem _ ha2, hfa2⟩

/-- Every pair produced by the ONETOMANY partitioner is the parent's own
primary-key tuple with that parent. -/
theorem prepare_parent_mem {L : JSelectInLoader} {states : List Nat}
    {store : Store} {ps : List (List Scalar × Nat)}
    (hL : L.load_only_child = false)
    (h : prepare_states L states store = .ok (.parentStates ps)) :
    ∀ kv ∈ ps, kv.snd ∈ states ∧
      pluckTuple L.source_pk_cols (store kv.snd).row = some kv.fst := by
  intro kv hkv
  obtain ⟨a, ha, hfa⟩ := mapM_ok_forall _ states ps (prepare_states_parent_ok hL h) kv hkv
  cases hpl : get_primary_key_tuple L.source_pk_cols (store a).row with
  | none => rw [hpl] at hfa; cases hfa
  | some t =>
      rw [hpl] at hfa
      have : (t, a) = kv := by
        simpa using hfa
      subst this
      exact ⟨ha, hpl⟩

theorem relatedToField_eq (uselist : Bool) (ro : Option Row) :
    relatedToField uselist ro =
      (if uselist then FieldVal.vlist [ro]
       else match ro with
            | some r => FieldVal.vrow r
            | none => FieldVal.vnull) := rfl

/-- Everything the claims need to know about a prepared MANYTOONE grouping. -/
theorem prepared_child_facts {L : JSelectInLoader} {states : List Nat}
    {store : Store} {gs : List (List Scalar × List Nat)} {ns : List Nat}
    (hL : L.load_only_child = true)
    (hprep : prepare_states L states store = .ok (.childStates gs ns)) :
    (∀ k, Scalar.null ∉ k → lookupGroupD gs k
        = states.filter (fun j => pluckTuple L.child_lookup_cols (store j).row = some k))
    ∧ ns = states.filter (nullFk L.child_lookup_cols store)
    ∧ (gs.map Prod.fst).Nodup
    ∧ (∀ k ∈ gs.map Prod.fst, Scalar.null ∉ k) := by
  have hgo := prepare_states_child_ok hL hprep
  refine ⟨?_, ?_, ?_, ?_⟩
  · intro k hk
    have := prepChildGo_lookup L.child_lookup_cols store k hk states [] [] gs ns hgo
    simpa [lookupGroupD_nil] using this
  · have := prepChildGo_none_states L.child_lookup_cols store states [] [] gs ns hgo
    simpa using this
  · exact prepChildGo_keys_nodup L.child_lookup_cols store states [] [] gs ns
      (by simp) hgo
  · exact prepChildGo_keys_nullfree L.child_lookup_cols store states [] [] gs ns
      (by simp) hgo

/-- A MANYTOONE parent with a null-free foreign-key tuple ends up with the
related object of its tuple (wrapped per cardinality), whatever the batch
size. -/
theorem child_rel_of_prepared {L : JSelectInLoader} (B : Nat) (db : List Row)
    {states : List Nat} {store : Store} {gs : List (List Scalar × List Nat)}
    {ns : List Nat} {j : Nat} {t : List Scalar}
    (hL : L.load_only_child = true)
    (hprep : prepare_states L states store = .ok (.childStates gs ns))
    (hj : j ∈ states)
    (hpl : pluckTuple L.child_lookup_cols (store j).row = some t)
    (ht : Scalar.null ∉ t) :
    ((fetch_results_and_populate_states L B db (.childStates gs ns) store).store j).rel
      = some (relatedToField L.uselist (relatedFor L.target_pk_cols db t)) := by
  obtain ⟨hlk, hnschar, hndkeys, hnfkeys⟩ := prepared_child_facts hL hprep
  have hjt : j ∈ lookupGroupD gs t := by
    rw [hlk t ht]
    exact List.mem_filter.mpr ⟨hj, by simp [hpl]⟩
  have hns : j ∉ ns := by
    intro hjns
    rw [hnschar] at hjns
    have := (List.mem_filter.mp hjns).2
    rw [show nullFk L.child_lookup_cols store j = (Scalar.null ∈ t : Bool) from
      by rw [nullFk, hpl]] at this
    exact ht (by simpa using this)
  have htR : t ∈ List.insertionSort keyLeP (gs.map Prod.fst) :=
    (List.mem_insertionSort keyLeP).mpr
      (lookupGroupD_ne_nil_mem_keys (List.ne_nil_of_mem hjt))
  have hndR : (List.insertionSort keyLeP (gs.map Prod.fst)).Nodup :=
    ((List.perm_insertionSort keyLeP (gs.map Prod.fst)).nodup_iff).mpr hndkeys
  have huniq : ∀ k ∈ List.insertionSort keyLeP (gs.map Prod.fst),
      j ∈ lookupGroupD gs k → k = t := by
    intro k hkR hjk
    have hkkeys : k ∈ gs.map Prod.fst := (List.mem_insertionSort keyLeP).mp hkR
    have hknf := hnfkeys k hkkeys
    have hplk : pluckTuple L.child_lookup_cols (store j).row = some k := by
      rw [hlk k hknf] at hjk
      have := (List.mem_filter.mp hjk).2
      simpa using this
    rw [hpl] at hplk
    exact (Option.some.inj hplk).symm
  show ((load_via_child L B db gs ns store).store j).rel = _
  rw [load_via_child]
  exact child_go_rel_group L B db gs ns j t _ store htR hndR hjt huniq hns

/-- The final parent states of the MANYTOONE driver do not depend on the
batch size. -/
theorem child_fetch_store_eq {L : JSelectInLoader} {states : List Nat}
    {store : Store} {gs : List (List Scalar × List Nat)} {ns : List Nat}
    (hL : L.load_only_child = true)
    (hprep : prepare_states L states store = .ok (.childStates gs ns))
    (B1 B2 : Nat) (db : List Row) :
    (fetch_results_and_populate_states L B1 db (.childStates gs ns) store).store
      = (fetch_results_and_populate_states L B2 db (.childStates gs ns) store).store := by
  obtain ⟨hlk, hnschar, hndkeys, hnfkeys⟩ := prepared_child_facts hL hprep
  funext j
  apply PState_ext
  · show ((load_via_child_go L B1 db gs ns
        (List.insertionSort keyLeP (gs.map Prod.fst)) store).store j).row
      = ((load_via_child_go L B2 db gs ns
        (List.insertionSort keyLeP (gs.map Prod.fst)) store).store j).row
    rw [child_go_row, child_go_row]
  · show ((load_via_child_go L B1 db gs ns
        (List.insertionSort keyLeP (gs.map Prod.fst)) store).store j).rel
      = ((load_via_child_go L B2 db gs ns
        (List.insertionSort keyLeP (gs.map Prod.fst)) store).store j).rel
    by_cases hex : ∃ k, k ∈ gs.map Prod.fst ∧ j ∈ lookupGroupD gs k
    · obtain ⟨k, hkkeys, hjk⟩ := hex
      have hknf := hnfkeys k hkkeys
      have hplj : pluckTuple L.child_lookup_cols (store j).row = some k := by
        rw [hlk k hknf] at hjk
        have := (List.mem_filter.mp hjk).2
        simpa using this
      have hns : j ∉ ns := by
        intro hjns
        rw [hnschar] at hjns
        have := (List.mem_filter.mp hjns).2
        rw [show nullFk L.child_lookup_cols store j = (Scalar.null ∈ k : Bool) from
          by rw [nullFk, hplj]] at this
        exact hknf (by simpa using this)
      have htR : k ∈ List.insertionSort keyLeP (gs.map Prod.fst) :=
        (List.mem_insertionSort keyLeP).mpr hkkeys
      have hndR : (List.insertionSort keyLeP (gs.map Prod.fst)).Nodup :=
        ((List.perm_insertionSort keyLeP (gs.map Prod.fst)).nodup_iff).mpr hndkeys
      have huniq : ∀ kk ∈ List.insertionSort keyLeP (gs.map Prod.fst),
          j ∈ lookupGroupD gs kk → kk = k := by
        intro kk hkkR hjkk
        have hkkkeys : kk ∈ gs.map Prod.fst := (List.mem_insertionSort keyLeP).mp hkkR
        have hkknf := hnfkeys kk hkkkeys
        have hplkk : pluckTuple L.child_lookup_cols (store j).row = some kk := by
          rw [hlk kk hkknf] at hjkk
          have := (List.mem_filter.mp hjkk).2
          simpa using this
        rw [hplj] at hplkk
        exact (Option.some.inj hplkk).symm
      rw [child_go_rel_group L B1 db gs ns j k _ store htR hndR hjk huniq hns,
        child_go_rel_group L B2 db gs ns j k _ store htR hndR hjk huniq hns]
    · push_neg at hex
      have hnogroup : ∀ k ∈ List.insertionSort keyLeP (gs.map Prod.fst),
          j ∉ lookupGroupD gs k := by
        intro k hk
        exact hex k ((List.mem_insertionSort keyLeP).mp hk)
      by_cases hns : j ∈ ns
      · by_cases hRnil : List.insertionSort keyLeP (gs.map Prod.fst) = []
        · rw [hRnil, load_via_child_go_nil, load_via_child_go_nil]
        · rw [child_go_rel_none L B1 db gs ns j _ store hns hnogroup hRnil,
            child_go_rel_none L B2 db gs ns j _ store hns hnogroup hRnil]
      · rw [child_go_rel_untouched L B1 db gs ns j _ store hnogroup (Or.inl hns),
          child_go_rel_untouched L B2 db gs ns j _ store hnogroup (Or.inl hns)]

/-! ## Claims -/

theorem mapM_pk_error (cols : List String) (store : Store) :
    ∀ (states : List Nat) (j : Nat), j ∈ states →
    pluckTuple cols (store j).row = none →
    (states.mapM (fun j =>
        match get_primary_key_tuple cols (store j).row with
        | some t => Except.ok (t, j)
        | none => Except.error PrepError.incompleteRecord))
      = Except.error PrepError.incompleteRecord := by
  intro states
  induction states with
  | nil =>
      intro j hj _
      cases hj
  | cons a rest ih =>
      intro j hj hpl
      rw [List.mapM_cons]
      rcases List.mem_cons.mp hj with h1 | h1
      · subst h1
        rw [show get_primary_key_tuple cols (store j).row = none from hpl]
        rfl
      · cases hpa : get_primary_key_tuple cols (store a).row with
        | none => rfl
        | some t =>
            rw [ih j h1 hpl]
            rfl

/-- C4: in the `parent-owns-key` (ONETOMANY/MANYTOMANY) case, a parent record
missing a required primary-key column makes partitioning fail with the
incomplete-record error (the spec's `IncompleteRecordError`), fatal to the
load call, instead of silently producing wrong groupings. -/
theorem C4_missing_pk_raises (L : JSelectInLoader) (states : List Nat)
    (store : Store) (j : Nat)
    (hL : L.load_only_child = false)
    (hj : j ∈ states)
    (hpl : get_primary_key_tuple L.source_pk_cols (store j).row = none) :
    prepare_states L states store = .error .incompleteRecord := by
  rw [prepare_states, if_neg (by rw [hL]; simp)]
  rw [mapM_pk_error L.source_pk_cols store states j hj hpl]
  rfl

def L4w : JSelectInLoader := ⟨("rel4"), false, false, [], [("id")], [], []⟩

def store4w : Store := fun _ => ⟨[], none⟩

/-- Witness for C4 at a concrete incomplete record. -/
theorem C4_missing_pk_raises_witness :
    (L4w.load_only_child = false ∧ (0 : Nat) ∈ [0]
      ∧ get_primary_key_tuple L4w.source_pk_cols (store4w 0).row = none)
    ∧ prepare_states L4w [0] store4w = .error .incompleteRecord :=
  ⟨⟨rfl, by decide, rfl⟩, C4_missing_pk_raises L4w [0] store4w 0 rfl (by decide) rfl⟩

/-- C10: across one whole load call the driver writes only the single
relationship-named field: every scalar column of every parent record keeps
its original value in both topology paths (and `prepare_states` only reads
the records). -/
theorem C10_frame_only_relationship_field (L : JSelectInLoader) (B : Nat)
    (db : List Row) (prep : Prepared) (s : Store) (j : Nat) :
    ((fetch_results_and_populate_states L B db prep s).store j).row = (s j).row := by
  cases prep with
  | childStates gs ns =>
      show ((load_via_child_go L B db gs ns
        (List.insertionSort keyLeP (gs.map Prod.fst)) s).store j).row = (s j).row
      exact child_go_row L B db gs ns _ s j
  | parentStates ps =>
      show ((load_via_parent_go L B db ps s).store j).row = (s j).row
      exact parent_go_row L B db ps s j

def L3cx : JSelectInLoader := ⟨("articles"), true, false, [], [("id")], [], [("uid")]⟩

def store3cx : Store := fun j =>
  if j = 0 then ⟨[(("id"), .int 1)], none⟩
  else if j = 1 then ⟨[(("id"), .int 2)], none⟩
  else ⟨[], none⟩

def db3cx : List Row :=
  [[(("id"), .int 10), (("uid"), .int 1)],
   [(("id"), .int 20), (("uid"), .int 2)]]

/-- C3 counterexample: in `_load_via_parent` each parent's matched rows are
yielded immediately after that parent's own write, so a row of the batch is
yielded before the batch's population is complete (parent 1 is written after
parent 0's row was already yielded). -/
theorem C3_counterexample :
    (loadOutcome (runLoad L3cx 500 db3cx [0, 1] store3cx)).events
      = [.exec [[.int 1], [.int 2]], .write 0,
         .yieldRow [(("id"), .int 10), (("uid"), .int 1)], .write 1,
         .yieldRow [(("id"), .int 20), (("uid"), .int 2)]]
    ∧ batchPopulateBeforeYield
        (loadOutcome (runLoad L3cx 500 db3cx [0, 1] store3cx)).events = false := by
  have hprep : prepare_states L3cx [0, 1] store3cx
      = .ok (.parentStates [([.int 1], 0), ([.int 2], 1)]) := rfl
  have hev : (loadOutcome (runLoad L3cx 500 db3cx [0, 1] store3cx)).events
      = [.exec [[.int 1], [.int 2]], .write 0,
         .yieldRow [(("id"), .int 10), (("uid"), .int 1)], .write 1,
         .yieldRow [(("id"), .int 20), (("uid"), .int 2)]] := by
    simp [runLoad, hprep, Except.map, loadOutcome, fetch_results_and_populate_states,
      load_via_parent, load_via_parent_go_cons, load_via_parent_go_nil]
    rfl
  exact ⟨hev, by rw [hev]; rfl⟩

/-- C3 amended: the batch-population-before-yield guarantee holds of the
`_load_via_child` (MANYTOONE) driver: within every batch, all relationship
writes (including the none-state writes) happen before any of that batch's
rows are yielded. -/
theorem C3_amended_child_population_precedes_yield (L : JSelectInLoader)
    (B : Nat) (db : List Row) (gs : List (List Scalar × List Nat))
    (ns : List Nat) (s : Store) :
    batchPopulateBeforeYield
      (fetch_results_and_populate_states L B db (.childStates gs ns) s).events
      = true := by
  show batchPopulateBeforeYield (load_via_child_go L B db gs ns
    (List.insertionSort keyLeP (gs.map Prod.fst)) s).events = true
  exact child_go_bpby L B db gs ns _ s false

def L8cx : JSelectInLoader := ⟨("tags"), true, false, [], [("id")], [], [("tid")]⟩

def store8cx : Store := fun j =>
  if j = 0 then ⟨[(("id"), .int 2)], none⟩
  else if j = 1 then ⟨[(("id"), .int 1)], none⟩
  else ⟨[], none⟩

/-- C8 counterexample: the row-grouping (ONETOMANY/MANYTOMANY) path executes
its batch keys in input order without sorting: the executed bound key list
`[(2), (1)]` is not sorted. -/
theorem C8_counterexample :
    Event.exec [[Scalar.int 2], [Scalar.int 1]]
      ∈ (loadOutcome (runLoad L8cx 500 [] [0, 1] store8cx)).events
    ∧ ¬ List.Pairwise keyLeP [[Scalar.int 2], [Scalar.int 1]] := by
  have hprep : prepare_states L8cx [0, 1] store8cx
      = .ok (.parentStates [([.int 2], 0), ([.int 1], 1)]) := rfl
  have hev : (loadOutcome (runLoad L8cx 500 [] [0, 1] store8cx)).events
      = [.exec [[.int 2], [.int 1]], .write 0, .write 1] := by
    simp [runLoad, hprep, Except.map, loadOutcome, fetch_results_and_populate_states,
      load_via_parent, load_via_parent_go_cons, load_via_parent_go_nil]
    rfl
  constructor
  · rw [hev]
    simp
  · intro hpw
    have := (List.pairwise_cons.mp hpw).1 [Scalar.int 1] (by simp)
    simp [keyLeP, keyLe, Scalar.leB] at this

/-- C8 amended: the key sorting lives in the MANYTOONE (`_load_via_child`)
path: the grouped keys are sorted once before chunking, so every executed
batch's bound key list is sorted. -/
theorem C8_amended_sort_in_child_path (L : JSelectInLoader) (B : Nat)
    (db : List Row) (gs : List (List Scalar × List Nat)) (ns : List Nat)
    (s : Store) (ks : List (List Scalar))
    (h : Event.exec ks
      ∈ (fetch_results_and_populate_states L B db (.childStates gs ns) s).events) :
    List.Pairwise keyLeP ks := by
  have h2 : Event.exec ks ∈ (load_via_child_go L B db gs ns
      (List.insertionSort keyLeP (gs.map Prod.fst)) s).events := h
  exact child_go_exec_sorted L B db gs ns _ s (sorted_sortedKeys _) ks h2

def L8w : JSelectInLoader := ⟨("owner8"), false, true, [("owner_id")], [], [("id")], []⟩

def store8w : Store := fun _ => ⟨[(("id"), .int 1), (("owner_id"), .int 5)], none⟩

/-- Witness for the amended C8 at a concrete batch. -/
theorem C8_amended_sort_in_child_path_witness :
    (Event.exec [[Scalar.int 5]]
      ∈ (fetch_results_and_populate_states L8w 500 []
          (.childStates [([.int 5], [0])] []) store8w).events)
    ∧ List.Pairwise keyLeP [[Scalar.int 5]] := by
  have hm : Event.exec [[Scalar.int 5]]
      ∈ (fetch_results_and_populate_states L8w 500 []
          (.childStates [([.int 5], [0])] []) store8w).events := by
    simp [fetch_results_and_populate_states, load_via_child,
      load_via_child_go_cons, load_via_child_go_nil, keyLeP, keyLe, Scalar.leB]
  exact ⟨hm, C8_amended_sort_in_child_path L8w 500 [] [([.int 5], [0])] [] store8w
    [[Scalar.int 5]] hm⟩

def L1cx : JSelectInLoader := ⟨("author"), false, true, [("author_id")], [], [("id")], []⟩

def store1cx : Store := fun _ =>
  ⟨[(("id"), .int 1), (("author_id"), .null)], none⟩

def db1cx : List Row := [[(("id"), .int 5)]]

/-- C1 evaluated at the failing input: when every parent has a null
foreign-key component, all parents are routed to the "no target possible"
set, zero batches run, and — because the none-state population sits inside
the batch loop — the relationship field is left unset, contradicting the
claimed completeness. -/
theorem C1_code_eval :
    prepare_states L1cx [0] store1cx = .ok (.childStates [] [0])
    ∧ (loadOutcome (runLoad L1cx 500 db1cx [0] store1cx)).events = []
    ∧ (loadOutcome (runLoad L1cx 500 db1cx [0] store1cx)).errored = false
    ∧ ((loadOutcome (runLoad L1cx 500 db1cx [0] store1cx)).store 0).rel = none := by
  have hprep : prepare_states L1cx [0] store1cx = .ok (.childStates [] [0]) := rfl
  refine ⟨hprep, ?_, ?_, ?_⟩ <;>
    simp [runLoad, hprep, Except.map, loadOutcome, fetch_results_and_populate_states,
      load_via_child, load_via_child_go_nil, store1cx]

def L5cx : JSelectInLoader := ⟨("owner"), true, true, [("owner_id")], [], [("id")], []⟩

def store5cx : Store := fun _ =>
  ⟨[(("id"), .int 7), (("owner_id"), .null)], none⟩

def db5cx : List Row := [[(("id"), .int 3)]]

/-- C5 evaluated at the failing input: a null-foreign-key parent never
appears in any bound key list (here no query is executed at all), but its
relationship field does not resolve to the empty value — it is left unset
because zero batches ran. -/
theorem C5_code_eval :
    prepare_states L5cx [0] store5cx = .ok (.childStates [] [0])
    ∧ execCount (loadOutcome (runLoad L5cx 500 db5cx [0] store5cx)).events = 0
    ∧ execKeysJoin (loadOutcome (runLoad L5cx 500 db5cx [0] store5cx)).events = []
    ∧ ((loadOutcome (runLoad L5cx 500 db5cx [0] store5cx)).store 0).rel = none := by
  have hprep : prepare_states L5cx [0] store5cx = .ok (.childStates [] [0]) := rfl
  have hrun : (loadOutcome (runLoad L5cx 500 db5cx [0] store5cx)).events = [] := by
    simp [runLoad, hprep, Except.map, loadOutcome, fetch_results_and_populate_states,
      load_via_child, load_via_child_go_nil]
  refine ⟨hprep, ?_, ?_, ?_⟩
  · rw [hrun]; rfl
  · rw [hrun]; rfl
  · simp [runLoad, hprep, Except.map, loadOutcome, fetch_results_and_populate_states,
      load_via_child, load_via_child_go_nil, store5cx]

def L9cx : JSelectInLoader := ⟨("profile"), false, false, [], [("id")], [], [("uid")]⟩

def store9cx : Store := fun j =>
  if j = 0 then ⟨[(("id"), .int 1)], none⟩
  else if j = 1 then ⟨[(("id"), .int 2)], none⟩
  else ⟨[], none⟩

/-- C9 evaluated at the failing input: in `_load_via_parent` with singular
cardinality and no matching rows, the first unmatched parent's field is set
to `None` but the generator then executes `yield from None` and raises a
`TypeError`, aborting the load; the second unmatched parent is never
populated — the claimed "otherwise set the field to empty/null" behaviour
does not survive. -/
theorem C9_code_eval :
    prepare_states L9cx [0, 1] store9cx
      = .ok (.parentStates [([.int 1], 0), ([.int 2], 1)])
    ∧ (loadOutcome (runLoad L9cx 500 [] [0, 1] store9cx)).errored = true
    ∧ (loadOutcome (runLoad L9cx 500 [] [0, 1] store9cx)).events
        = [.exec [[.int 1], [.int 2]], .write 0]
    ∧ ((loadOutcome (runLoad L9cx 500 [] [0, 1] store9cx)).store 0).rel
        = some FieldVal.vnull
    ∧ ((loadOutcome (runLoad L9cx 500 [] [0, 1] store9cx)).store 1).rel = none := by
  have hprep : prepare_states L9cx [0, 1] store9cx
      = .ok (.parentStates [([.int 1], 0), ([.int 2], 1)]) := rfl
  have hul : L9cx.uselist = false := rfl
  have hfk : L9cx.fk_cols = [("uid")] := rfl
  refine ⟨hprep, ?_, ?_, ?_, ?_⟩ <;>
    simp [runLoad, hprep, Except.map, loadOutcome, fetch_results_and_populate_states,
      load_via_parent, load_via_parent_go_cons, load_via_parent_go_nil,
      processStates, runQuery, buildData, lookupData, lookupAssoc, setRel,
      hul, hfk, store9cx]

def L2cx : JSelectInLoader := ⟨("parent"), true, true, [("parent_id")], [], [("id")], []⟩

def store2cx : Store := fun _ =>
  ⟨[(("id"), .int 1), (("parent_id"), .int 99)], none⟩

def db2cx : List Row := [[(("id"), .int 5)]]

/-- C2 counterexample: in the child-lookup (MANYTOONE) path, a plural
relationship with no matching fetched row is populated with the one-element
collection `[None]`, not the claimed empty collection, and zero rows are
yielded. -/
theorem C2_counterexample :
    ((loadOutcome (runLoad L2cx 500 db2cx [0] store2cx)).store 0).rel
      = some (.vlist [none])
    ∧ some (FieldVal.vlist [none]) ≠ some (FieldVal.vlist ([] : List (Option Row)))
    ∧ (loadOutcome (runLoad L2cx 500 db2cx [0] store2cx)).events
        = [.exec [[.int 99]], .write 0] := by
  have hprep : prepare_states L2cx [0] store2cx
      = .ok (.childStates [([.int 99], [0])] []) := rfl
  have hul : L2cx.uselist = true := rfl
  have hpk : L2cx.target_pk_cols = [("id")] := rfl
  refine ⟨?_, by decide, ?_⟩ <;>
    · simp [runLoad, hprep, Except.map, loadOutcome,
        fetch_results_and_populate_states, load_via_child,
        load_via_child_go_cons, load_via_child_go_nil]
      rfl

/-- C2 amended: for a parent with no matching fetched row, the child-lookup
path stores `None` when singular but the one-element collection `[None]`
when plural (matches store the row, or `[row]` when plural); in the
row-grouping path a plural relationship with no matching row stores the
empty collection `[]`.  (In the row-grouping path with singular cardinality
an unmatched parent makes the generator raise after writing `None`, see the
C9 record.) -/
theorem C2_amended_no_match_values :
    (∀ (L : JSelectInLoader) (B : Nat) (db : List Row) (states : List Nat)
       (store : Store) (gs : List (List Scalar × List Nat)) (ns : List Nat)
       (j : Nat) (t : List Scalar),
      L.load_only_child = true →
      prepare_states L states store = .ok (.childStates gs ns) →
      j ∈ states →
      pluckTuple L.child_lookup_cols (store j).row = some t →
      Scalar.null ∉ t →
      (relatedFor L.target_pk_cols db t = none →
        ((fetch_results_and_populate_states L B db (.childStates gs ns) store).store j).rel
          = some (if L.uselist then FieldVal.vlist [none] else FieldVal.vnull))
      ∧ (∀ r, relatedFor L.target_pk_cols db t = some r →
        ((fetch_results_and_populate_states L B db (.childStates gs ns) store).store j).rel
          = some (if L.uselist then FieldVal.vlist [some r] else FieldVal.vrow r)))
    ∧ (∀ (L : JSelectInLoader) (B : Nat) (db : List Row) (states : List Nat)
       (store : Store) (ps : List (List Scalar × Nat)) (j : Nat) (k : List Scalar),
      L.load_only_child = false →
      L.uselist = true →
      prepare_states L states store = .ok (.parentStates ps) →
      (k, j) ∈ ps →
      collFor L.fk_cols db k = [] →
      ((fetch_results_and_populate_states L B db (.parentStates ps) store).store j).rel
        = some (FieldVal.vlist [])) := by
  constructor
  · intro L B db states store gs ns j t hL hprep hj hpl ht
    have h := child_rel_of_prepared B db hL hprep hj hpl ht
    constructor
    · intro hnone
      rw [h, hnone]
      cases hul : L.uselist <;> simp [relatedToField, hul]
    · intro r hsome
      rw [h, hsome]
      cases hul : L.uselist <;> simp [relatedToField, hul]
  · intro L B db states store ps j k hL hul hprep hmem hcoll
    have huniq : ∀ kk, (kk, j) ∈ ps → kk = k := by
      intro kk hkk
      have h1 := (prepare_parent_mem hL hprep (kk, j) hkk).2
      have h2 := (prepare_parent_mem hL hprep (k, j) hmem).2
      rw [h1] at h2
      exact Option.some.inj h2
    show ((load_via_parent_go L B db ps store).store j).rel = _
    rw [(parent_go_canon L B db ps store).1]
    rw [canon_rel_uselist L db hul ps store j k hmem huniq]
    rw [hcoll]
    rfl

def L2w : JSelectInLoader := ⟨("kids"), true, false, [], [("id")], [], [("uid")]⟩

def store2w : Store := fun _ => ⟨[(("id"), .int 1)], none⟩

/-- Witness for the amended C2 at concrete no-match inputs in both paths. -/
theorem C2_amended_no_match_values_witness :
    ((fetch_results_and_populate_states L2cx 500 db2cx
        (.childStates [([.int 99], [0])] []) store2cx).store 0).rel
      = some (if L2cx.uselist then FieldVal.vlist [none] else FieldVal.vnull)
    ∧ ((fetch_results_and_populate_states L2w 500 []
        (.parentStates [([.int 1], 0)]) store2w).store 0).rel
      = some (FieldVal.vlist []) := by
  constructor
  · exact (C2_amended_no_match_values.1 L2cx 500 db2cx [0] store2cx
      [([.int 99], [0])] [] 0 [.int 99] rfl rfl (by decide) rfl (by decide)).1 rfl
  · exact C2_amended_no_match_values.2 L2w 500 [] [0] store2w
      [([.int 1], 0)] 0 [.int 1] rfl rfl rfl (by decide) rfl

def L7s : JSelectInLoader := ⟨("user"), false, true, [("parent_id")], [], [("id")], []⟩

def store7s : Store := fun j =>
  if j = 0 then ⟨[(("id"), .int 1), (("parent_id"), .int 5)], none⟩
  else if j = 1 then ⟨[(("id"), .int 2), (("parent_id"), .null)], none⟩
  else if j = 2 then ⟨[(("id"), .int 3), (("parent_id"), .int 5)], none⟩
  else ⟨[], none⟩

def db7s : List Row := [[(("id"), .int 5), (("name"), .str ("X"))]]

theorem count_eq_one_of_nodup_mem (t : List Scalar) :
    ∀ (l : List (List Scalar)), l.Nodup → t ∈ l → l.count t = 1 := by
  intro l
  induction l with
  | nil => intro _ ht; cases ht
  | cons a l ih =>
      intro hnd ht
      rcases List.mem_cons.mp ht with h | h
      · subst h
        rw [List.count_cons_self]
        rw [List.count_eq_zero.mpr (List.nodup_cons.mp hnd).1]
      · have hne : a ≠ t := by
          intro hh
          subst hh
          exact (List.nodup_cons.mp hnd).1 h
        rw [List.count_cons_of_ne (fun hh => hne hh.symm) l]
        exact ih (List.nodup_cons.mp hnd).2 h

/-- C7: in the MANYTOONE path, parents sharing one foreign-key tuple are
merged into one group, the shared key is bound exactly once across all
executed queries, and the parents receive identical relationship values;
concretely, Scenario A: parents `(1, fk 5)`, `(2, fk null)`, `(3, fk 5)`
against one target row `(5, X)` produce one query bound to `[(5)]`, the
matched row on parents 0 and 2, and `None` on parent 1. -/
theorem C7_grouping_and_dedup :
    (∀ (L : JSelectInLoader) (B : Nat) (db : List Row) (states : List Nat)
       (store : Store) (gs : List (List Scalar × List Nat)) (ns : List Nat)
       (j1 j2 : Nat) (t : List Scalar),
      L.load_only_child = true →
      prepare_states L states store = .ok (.childStates gs ns) →
      j1 ∈ states → j2 ∈ states →
      pluckTuple L.child_lookup_cols (store j1).row = some t →
      pluckTuple L.child_lookup_cols (store j2).row = some t →
      Scalar.null ∉ t →
      (j1 ∈ lookupGroupD gs t ∧ j2 ∈ lookupGroupD gs t)
      ∧ ((fetch_results_and_populate_states L B db (.childStates gs ns) store).store j1).rel
          = ((fetch_results_and_populate_states L B db (.childStates gs ns) store).store j2).rel
      ∧ List.count t (execKeysJoin
          (fetch_results_and_populate_states L B db (.childStates gs ns) store).events) = 1)
    ∧ (prepare_states L7s [0, 1, 2] store7s
        = .ok (.childStates [([.int 5], [0, 2])] [1])
      ∧ (loadOutcome (runLoad L7s 500 db7s [0, 1, 2] store7s)).events
          = [.exec [[.int 5]], .write 0, .write 2, .write 1,
             .yieldRow [(("id"), .int 5), (("name"), .str ("X"))]]
      ∧ execCount (loadOutcome (runLoad L7s 500 db7s [0, 1, 2] store7s)).events = 1
      ∧ ((loadOutcome (runLoad L7s 500 db7s [0, 1, 2] store7s)).store 0).rel
          = some (.vrow [(("id"), .int 5), (("name"), .str ("X"))])
      ∧ ((loadOutcome (runLoad L7s 500 db7s [0, 1, 2] store7s)).store 2).rel
          = some (.vrow [(("id"), .int 5), (("name"), .str ("X"))])
      ∧ ((loadOutcome (runLoad L7s 500 db7s [0, 1, 2] store7s)).store 1).rel
          = some FieldVal.vnull) := by
  constructor
  · intro L B db states store gs ns j1 j2 t hL hprep hj1 hj2 hpl1 hpl2 ht
    obtain ⟨hlk, hnschar, hndkeys, hnfkeys⟩ := prepared_child_facts hL hprep
    have hmem1 : j1 ∈ lookupGroupD gs t := by
      rw [hlk t ht]
      exact List.mem_filter.mpr ⟨hj1, by simp [hpl1]⟩
    have hmem2 : j2 ∈ lookupGroupD gs t := by
      rw [hlk t ht]
      exact List.mem_filter.mpr ⟨hj2, by simp [hpl2]⟩
    refine ⟨⟨hmem1, hmem2⟩, ?_, ?_⟩
    · rw [child_rel_of_prepared B db hL hprep hj1 hpl1 ht,
        child_rel_of_prepared B db hL hprep hj2 hpl2 ht]
    · have htR : t ∈ List.insertionSort keyLeP (gs.map Prod.fst) :=
        (List.mem_insertionSort keyLeP).mpr
          (lookupGroupD_ne_nil_mem_keys (List.ne_nil_of_mem hmem1))
      have hndR : (List.insertionSort keyLeP (gs.map Prod.fst)).Nodup :=
        ((List.perm_insertionSort keyLeP (gs.map Prod.fst)).nodup_iff).mpr hndkeys
      show List.count t (execKeysJoin (load_via_child_go L B db gs ns
        (List.insertionSort keyLeP (gs.map Prod.fst)) store).events) = 1
      rw [child_go_execKeysJoin]
      exact count_eq_one_of_nodup_mem t _ hndR htR
  · have hprep : prepare_states L7s [0, 1, 2] store7s
        = .ok (.childStates [([.int 5], [0, 2])] [1]) := rfl
    have hev : (loadOutcome (runLoad L7s 500 db7s [0, 1, 2] store7s)).events
        = [.exec [[.int 5]], .write 0, .write 2, .write 1,
           .yieldRow [(("id"), .int 5), (("name"), .str ("X"))]] := by
      simp [runLoad, hprep, Except.map, loadOutcome,
        fetch_results_and_populate_states, load_via_child,
        load_via_child_go_cons, load_via_child_go_nil]
      rfl
    refine ⟨hprep, hev, by rw [hev]; rfl, ?_, ?_, ?_⟩ <;>
      · simp [runLoad, hprep, Except.map, loadOutcome,
          fetch_results_and_populate_states, load_via_child,
          load_via_child_go_cons, load_via_child_go_nil]
        rfl

/-- Witness for the universal part of C7 at Scenario A. -/
theorem C7_grouping_and_dedup_witness :
    ((0 : Nat) ∈ lookupGroupD [([.int 5], [0, 2])] [.int 5]
      ∧ (2 : Nat) ∈ lookupGroupD [([.int 5], [0, 2])] [.int 5])
    ∧ ((fetch_results_and_populate_states L7s 500 db7s
          (.childStates [([.int 5], [0, 2])] [1]) store7s).store 0).rel
        = ((fetch_results_and_populate_states L7s 500 db7s
          (.childStates [([.int 5], [0, 2])] [1]) store7s).store 2).rel
    ∧ List.count [.int 5] (execKeysJoin
        (fetch_results_and_populate_states L7s 500 db7s
          (.childStates [([.int 5], [0, 2])] [1]) store7s).events) = 1 :=
  C7_grouping_and_dedup.1 L7s 500 db7s [0, 1, 2] store7s
    [([.int 5], [0, 2])] [1] 0 2 [.int 5] rfl rfl (by decide) (by decide)
    rfl rfl (by decide)

/-- Number of grouped entries the driver drains: distinct foreign-key groups
in the MANYTOONE path, listed parent states otherwise. -/
def groupCount : Prepared → Nat
  | .childStates gs _ => gs.length
  | .parentStates l => l.length

theorem child_go_errored (L : JSelectInLoader) (B : Nat) (db : List Row)
    (gs : List (List Scalar × List Nat)) (ns : List Nat) :
    ∀ (R : List (List Scalar)) (s : Store),
    (load_via_child_go L B db gs ns R s).errored = false := by
  intro R s
  induction R, s using load_via_child_go.induct L B db gs ns with
  | case1 s =>
      rw [load_via_child_go_nil]
  | case2 k0 krest s chunk remaining fetched data ws s1 nws s2 ih =>
      rw [load_via_child_go_cons]
      exact ih

theorem prepare_child_implies_loc {L : JSelectInLoader} {states : List Nat}
    {store : Store} {gs : List (List Scalar × List Nat)} {ns : List Nat}
    (h : prepare_states L states store = .ok (.childStates gs ns)) :
    L.load_only_child = true := by
  by_cases hL : L.load_only_child = true
  · exact hL
  · rw [prepare_states, if_neg hL] at h
    cases hm : states.mapM (fun j =>
        match get_primary_key_tuple L.source_pk_cols (store j).row with
        | some t => Except.ok (t, j)
        | none => Except.error PrepError.incompleteRecord) with
    | error e => rw [hm] at h; cases h
    | ok l =>
        rw [hm] at h
        simp [Except.map] at h

def L6cx : JSelectInLoader := ⟨("one6"), false, false, [], [("id")], [], [("uid")]⟩

def store6cx : Store := fun j =>
  if j = 0 then ⟨[(("id"), .int 1)], none⟩
  else if j = 1 then ⟨[(("id"), .int 2)], none⟩
  else ⟨[], none⟩

/-- C6 counterexample: with batch size 1, two grouped entries and a singular
relationship that matches nothing, the generator raises during the first
batch and only one query is executed, not `ceil(groupCount / B) = 2` as the
claim states for every input. -/
theorem C6_counterexample :
    prepare_states L6cx [0, 1] store6cx
      = .ok (.parentStates [([.int 1], 0), ([.int 2], 1)])
    ∧ execCount (loadOutcome (runLoad L6cx 1 [] [0, 1] store6cx)).events = 1
    ∧ ceilDiv (groupCount (.parentStates [([.int 1], 0), ([.int 2], 1)])) 1 = 2
    ∧ (1 : Nat) ≠ 2 := by
  have hprep : prepare_states L6cx [0, 1] store6cx
      = .ok (.parentStates [([.int 1], 0), ([.int 2], 1)]) := rfl
  have hul : L6cx.uselist = false := rfl
  have hfk : L6cx.fk_cols = [("uid")] := rfl
  refine ⟨hprep, ?_, by decide, by decide⟩
  have hev : (loadOutcome (runLoad L6cx 1 [] [0, 1] store6cx)).events
      = [.exec [[.int 1]], .write 0] := by
    simp [runLoad, hprep, Except.map, loadOutcome, fetch_results_and_populate_states,
      load_via_parent, load_via_parent_go_cons, load_via_parent_go_nil,
      processStates, runQuery, buildData, lookupData, lookupAssoc, setRel,
      hul, hfk, store6cx]
  rw [hev]
  rfl

/-- C6 amended: the final parent states (and the raised-or-not outcome) are
identical for any two batch sizes, in both topology paths, crash or not; and
whenever the driver completes without raising, the number of executed
queries is `ceil(groupCount / B)`.  (When the singular row-grouping path
raises mid-run, later batches are skipped, so the query count falls short —
see the counterexample.) -/
theorem C6_amended_chunk_invariance (L : JSelectInLoader) (B1 B2 : Nat)
    (db : List Row) (states : List Nat) (store : Store) (prep : Prepared)
    (hB1 : 1 ≤ B1) (hB2 : 1 ≤ B2)
    (hprep : prepare_states L states store = .ok prep) :
    (fetch_results_and_populate_states L B1 db prep store).store
      = (fetch_results_and_populate_states L B2 db prep store).store
    ∧ (fetch_results_and_populate_states L B1 db prep store).errored
      = (fetch_results_and_populate_states L B2 db prep store).errored
    ∧ ((fetch_results_and_populate_states L B1 db prep store).errored = false →
        execCount (fetch_results_and_populate_states L B1 db prep store).events
          = ceilDiv (groupCount prep) B1) := by
  cases prep with
  | childStates gs ns =>
      have hL : L.load_only_child = true := prepare_child_implies_loc hprep
      refine ⟨child_fetch_store_eq hL hprep B1 B2 db, ?_, ?_⟩
      · show (load_via_child_go L B1 db gs ns
            (List.insertionSort keyLeP (gs.map Prod.fst)) store).errored
          = (load_via_child_go L B2 db gs ns
            (List.insertionSort keyLeP (gs.map Prod.fst)) store).errored
        rw [child_go_errored, child_go_errored]
      · intro _
        show execCount (load_via_child_go L B1 db gs ns
            (List.insertionSort keyLeP (gs.map Prod.fst)) store).events
          = ceilDiv (groupCount (.childStates gs ns)) B1
        rw [child_go_execCount L B1 db gs ns hB1]
        rw [List.length_insertionSort, List.length_map]
        rfl
  | parentStates ps =>
      refine ⟨?_, ?_, ?_⟩
      · show (load_via_parent_go L B1 db ps store).store
          = (load_via_parent_go L B2 db ps store).store
        rw [(parent_go_canon L B1 db ps store).1, (parent_go_canon L B2 db ps store).1]
      · show (load_via_parent_go L B1 db ps store).errored
          = (load_via_parent_go L B2 db ps store).errored
        rw [(parent_go_canon L B1 db ps store).2, (parent_go_canon L B2 db ps store).2]
      · intro herr
        show execCount (load_via_parent_go L B1 db ps store).events
          = ceilDiv (groupCount (.parentStates ps)) B1
        exact parent_go_execCount L B1 db hB1 ps store herr

/-- Witness for the amended C6 at Scenario A with batch sizes 1 and 2. -/
theorem C6_amended_chunk_invariance_witness :
    (fetch_results_and_populate_states L7s 1 db7s
        (.childStates [([.int 5], [0, 2])] [1]) store7s).store
      = (fetch_results_and_populate_states L7s 2 db7s
        (.childStates [([.int 5], [0, 2])] [1]) store7s).store
    ∧ (fetch_results_and_populate_states L7s 1 db7s
        (.childStates [([.int 5], [0, 2])] [1]) store7s).errored
      = (fetch_results_and_populate_states L7s 2 db7s
        (.childStates [([.int 5], [0, 2])] [1]) store7s).errored
    ∧ ((fetch_results_and_populate_states L7s 1 db7s
        (.childStates [([.int 5], [0, 2])] [1]) store7s).errored = false →
        execCount (fetch_results_and_populate_states L7s 1 db7s
          (.childStates [([.int 5], [0, 2])] [1]) store7s).events
          = ceilDiv (groupCount (.childStates [([.int 5], [0, 2])] [1])) 1) :=
  C6_amended_chunk_invariance L7s 1 2 db7s [0, 1, 2] store7s
    (.childStates [([.int 5], [0, 2])] [1]) (by decide) (by decide) rfl

end JessiQL
